import Mathlib

/-!
Verification of the CareTakerAI inference request pipeline.

This file gives a shallow embedding of the two deployment variants of the
pipeline found in the repository:

* `backend/python/inference.py` — the one-shot stdin/stdout adapter
  (function `main`), embedded in namespace `Inference`;
* `backend/python/server.py` — the resident HTTP service (route handler
  `inference`), embedded in namespace `Server`.

Python values that can flow through `json.loads` / `json.dumps` are modelled
by the inductive type `PyVal`.  The constructor `PyVal.obj` stands for an
arbitrary non-JSON-serializable Python object, so that the partiality of
`json.dumps` is visible in the model.  `loads` is an executable recursive
descent parser mirroring the grammar accepted by Python `json.loads`
(objects, arrays, strings with escapes, integer numerals, `true`, `false`,
`null`); `pyDumps` mirrors `json.dumps(v, indent=2)` including its
`ensure_ascii` escaping.  Modelling restrictions: JSON numbers are modelled
as arbitrary-precision integers (float literals, `NaN` and `Infinity` are
out of scope), and a lone `\/u` surrogate escape decodes to `U+0000` instead
of a surrogate code unit, since Lean characters are scalar values.  Error
message texts are paraphrases of the CPython ones; no claim depends on the
precise message wording, only on the prefixes that the pipeline itself
prepends.

The model gateway (`llm.create_chat_completion` with `max_tokens=200`,
`temperature=0.2`, `stop=["``` ... ```", "\n\n"]`) is treated as an opaque
capability of type `String → Except String String`: it receives the prompt
and either returns the raw generated text or raises (modelled as `.error`).

The mutual-exclusion behaviour of the service (`with lock:` around the whole
handler body) is modelled by the transition system in namespace `LockModel`.
-/

/-- Model of a Python value as it can appear around the `json` module.
`obj` stands for any Python object that is not JSON serializable (its
argument names the offending type, as in the `TypeError` message of
`json.dumps`). -/
inductive PyVal where
  | null : PyVal
  | bool : Bool → PyVal
  | int : Int → PyVal
  | str : String → PyVal
  | list : List PyVal → PyVal
  | dict : List (String × PyVal) → PyVal
  | obj : String → PyVal

mutual

/-- Nesting depth of a value (leaves have depth 1); it bounds the recursion
depth of the printer. -/
def depth : PyVal → Nat
  | .list xs => 1 + depthL xs
  | .dict kvs => 1 + depthD kvs
  | _ => 1

/-- Greatest depth of a member of a list value. -/
def depthL : List PyVal → Nat
  | [] => 0
  | x :: xs => max (depth x) (depthL xs)

/-- Greatest depth of a member value of a dict. -/
def depthD : List (String × PyVal) → Nat
  | [] => 0
  | kv :: kvs => max (depth kv.2) (depthD kvs)

end

/-- True exactly for Python `dict` values, i.e. JSON objects. -/
def PyVal.isDict : PyVal → Bool
  | .dict _ => true
  | _ => false

/-- Left brace character, written via its code point to keep string literals
free of braces. -/
def lbrace : Char := Char.ofNat 123

/-- Right brace character. -/
def rbrace : Char := Char.ofNat 125

/-- JSON whitespace as accepted by the Python parser. -/
def isWsChar (c : Char) : Bool := c = ' ' || c = '\t' || c = '\n' || c = '\r'

/-- Drop leading JSON whitespace. -/
def skipWs (cs : List Char) : List Char := cs.dropWhile isWsChar

/-- Character for a decimal digit value. -/
def digitChar (n : Nat) : Char := Char.ofNat (48 + n)

/-- Lowercase hexadecimal digit character, as produced by Python
`ensure_ascii` escaping. -/
def hexDigit (n : Nat) : Char :=
  if n < 10 then Char.ofNat (48 + n) else Char.ofNat (87 + n)

/-- Numeric value of a hexadecimal digit character. -/
def hexVal (c : Char) : Nat :=
  if c.toNat ≤ 57 then c.toNat - 48
  else if c.toNat ≤ 70 then c.toNat - 55
  else c.toNat - 87

/-- The six-character escape `\uXXXX` for a code unit below `0x10000`. -/
def uEscape (n : Nat) : List Char :=
  ['\\', 'u', hexDigit (n / 4096 % 16), hexDigit (n / 256 % 16),
   hexDigit (n / 16 % 16), hexDigit (n % 16)]

/-- Escape one character the way `json.dumps` does with its default
`ensure_ascii=True`: short escapes for the two JSON metacharacters and the
five named control characters, `\uXXXX` escapes (with surrogate pairs above
the BMP) for all other non-printable or non-ASCII characters. -/
def escapeChar (c : Char) : List Char :=
  if c = '"' then ['\\', '"']
  else if c = '\\' then ['\\', '\\']
  else if c.toNat = 8 then ['\\', 'b']
  else if c.toNat = 9 then ['\\', 't']
  else if c.toNat = 10 then ['\\', 'n']
  else if c.toNat = 12 then ['\\', 'f']
  else if c.toNat = 13 then ['\\', 'r']
  else if c.toNat < 32 || 126 < c.toNat then
    if c.toNat < 65536 then uEscape c.toNat
    else uEscape (55296 + (c.toNat - 65536) / 1024) ++
         uEscape (56320 + (c.toNat - 65536) % 1024)
  else [c]

/-- Escape a character list. -/
def escList : List Char → List Char
  | [] => []
  | c :: cs => escapeChar c ++ escList cs

/-- A JSON string literal for `s`, double quotes included. -/
def escString (s : String) : List Char := '"' :: escList s.toList ++ ['"']

/-- A run of `n` spaces, for `indent=2` pretty printing. -/
def spaces (n : Nat) : List Char := List.replicate n ' '

/-- Join pieces with a separator, as `",\n".join` would. -/
def joinSep (sep : List Char) : List (List Char) → List Char
  | [] => []
  | [x] => x
  | x :: xs => x ++ sep ++ joinSep sep xs

/-- Decimal digits of a natural number, most significant first.  The fuel is
an upper bound on the number of digits; `natDigits` supplies a sufficient
amount. -/
def natDigitsAux : Nat → Nat → List Char → List Char
  | 0, _, acc => acc
  | fuel + 1, n, acc =>
    if n < 10 then digitChar n :: acc
    else natDigitsAux fuel (n / 10) (digitChar (n % 10) :: acc)

/-- Decimal representation of a natural number. -/
def natDigits (n : Nat) : List Char := natDigitsAux (n + 1) n []

/-- Decimal representation of an integer, as `json.dumps` prints it. -/
def intChars (n : Int) : List Char :=
  if n < 0 then '-' :: natDigits (-n).toNat else natDigits n.toNat

/-- One unfolding step of the pretty printer.  `dv` is the printer for
strictly deeper values.  The layout mirrors `json.dumps(v, indent=2)`:
containers open with a newline, indent members by two more spaces, separate
them with a comma plus newline, and close at the enclosing level. -/
def dumpStep (dv : Nat → PyVal → Except String (List Char)) (lvl : Nat) :
    PyVal → Except String (List Char)
  | .null => .ok ("null".toList)
  | .bool true => .ok ("true".toList)
  | .bool false => .ok ("false".toList)
  | .int n => .ok (intChars n)
  | .str s => .ok (escString s)
  | .list [] => .ok ['[', ']']
  | .list (x :: xs) =>
    ((x :: xs).mapM (dv (lvl + 1))).map (fun parts =>
      '[' :: '\n' ::
        (joinSep [',', '\n'] (parts.map (fun p => spaces (2 * (lvl + 1)) ++ p)) ++
         '\n' :: (spaces (2 * lvl) ++ [']'])))
  | .dict [] => .ok [lbrace, rbrace]
  | .dict (kv :: kvs) =>
    ((kv :: kvs).mapM (fun p =>
        (dv (lvl + 1) p.2).map (fun d =>
          spaces (2 * (lvl + 1)) ++ escString p.1 ++ ':' :: ' ' :: d))).map
      (fun parts =>
        lbrace :: '\n' ::
          (joinSep [',', '\n'] parts ++ '\n' :: (spaces (2 * lvl) ++ [rbrace])))
  | .obj d => .error ("Object of type " ++ d ++ " is not JSON serializable")

/-- Fuel-indexed pretty printer; the fuel bounds the nesting depth. -/
def dumpV (fuel : Nat) : Nat → PyVal → Except String (List Char) :=
  Nat.rec (fun _ _ => .error "Maximum recursion depth exceeded")
    (fun _ ih => dumpStep ih) fuel

theorem dumpV_zero (lvl : Nat) (v : PyVal) :
    dumpV 0 lvl v = .error "Maximum recursion depth exceeded" := rfl

theorem dumpV_succ (fuel : Nat) :
    dumpV (fuel + 1) = dumpStep (dumpV fuel) := rfl

/-- Embedding of `json.dumps(v, indent=2)`: total on JSON-serializable
values, a `TypeError` otherwise.  `depth v` is exactly the recursion depth
the printer needs, so the fuel never runs out. -/
def pyDumps (v : PyVal) : Except String String :=
  (dumpV (depth v) 0 v).map (fun l => String.mk l)

/-- Combine a surrogate pair read from two `\uXXXX` escapes into one
character. -/
def surrogateChar (hi lo : Nat) : Char :=
  Char.ofNat (65536 + (hi - 55296) * 1024 + (lo - 56320))

/-- Hexadecimal digit characters, upper or lower case. -/
def isHex (c : Char) : Bool :=
  (48 ≤ c.toNat && c.toNat ≤ 57) || (65 ≤ c.toNat && c.toNat ≤ 70) ||
    (97 ≤ c.toNat && c.toNat ≤ 102)

/-- Decode the character after a backslash for the one-character escapes
accepted by the Python scanner. -/
def unescape (c : Char) : Option Char :=
  if c = '"' then some '"'
  else if c = '\\' then some '\\'
  else if c = '/' then some '/'
  else if c = 'b' then some (Char.ofNat 8)
  else if c = 'f' then some (Char.ofNat 12)
  else if c = 'n' then some '\n'
  else if c = 'r' then some '\r'
  else if c = 't' then some '\t'
  else none

/-- Scan the body of a JSON string literal (the opening quote has already
been consumed), mirroring the strict Python scanner: literal characters up
to the closing quote, raw control characters refused, one-character escapes
and `\uXXXX` escapes with surrogate-pair combination.  A lone surrogate is
accepted, as Python does; its decoded character is modelled as `U+0000`
(Lean characters cannot carry surrogate code units).  Each step consumes at
least one character, so fuel `length + 1` always suffices. -/
def scanStringF : Nat → List Char → Except String (List Char × List Char)
  | 0, _ => .error "Unterminated string"
  | fuel + 1, cs =>
    match cs with
    | [] => .error "Unterminated string"
    | c :: rest =>
      if c = '"' then .ok ([], rest)
      else if c = '\\' then
        match rest with
        | [] => .error "Unterminated string"
        | e :: rest2 =>
          if e = 'u' then
            match rest2 with
            | h1 :: h2 :: h3 :: h4 :: rest3 =>
              if isHex h1 && isHex h2 && isHex h3 && isHex h4 then
                let v := hexVal h1 * 4096 + hexVal h2 * 256 + hexVal h3 * 16 + hexVal h4
                if 55296 ≤ v ∧ v ≤ 56319 then
                  match rest3 with
                  | b :: u :: g1 :: g2 :: g3 :: g4 :: rest4 =>
                    if b = '\\' ∧ u = 'u' ∧ isHex g1 ∧ isHex g2 ∧
                        isHex g3 ∧ isHex g4 then
                      let w := hexVal g1 * 4096 + hexVal g2 * 256 + hexVal g3 * 16 + hexVal g4
                      if 56320 ≤ w ∧ w ≤ 57343 then
                        (scanStringF fuel rest4).map (fun p => (surrogateChar v w :: p.1, p.2))
                      else
                        (scanStringF fuel rest3).map (fun p => (Char.ofNat 0 :: p.1, p.2))
                    else
                      (scanStringF fuel rest3).map (fun p => (Char.ofNat 0 :: p.1, p.2))
                  | _ =>
                    (scanStringF fuel rest3).map (fun p => (Char.ofNat 0 :: p.1, p.2))
                else if 56320 ≤ v ∧ v ≤ 57343 then
                  (scanStringF fuel rest3).map (fun p => (Char.ofNat 0 :: p.1, p.2))
                else
                  (scanStringF fuel rest3).map (fun p => (Char.ofNat v :: p.1, p.2))
              else .error "Invalid hexadecimal escape"
            | _ => .error "Invalid hexadecimal escape"
          else
            match unescape e with
            | some d => (scanStringF fuel rest2).map (fun p => (d :: p.1, p.2))
            | none => .error "Invalid escape"
      else if c.toNat < 32 then .error "Invalid control character"
      else (scanStringF fuel rest).map (fun p => (c :: p.1, p.2))

/-- Decimal digit characters (48 to 57), as matched by the `[0-9]` part of
the Python number grammar. -/
def isDigitCh (c : Char) : Bool := 48 ≤ c.toNat && c.toNat ≤ 57

/-- Numeric value of a run of decimal digit characters. -/
def digitsToNat (ds : List Char) : Nat :=
  ds.foldl (fun a c => a * 10 + (c.toNat - 48)) 0

/-- Scan an integer numeral: an optional minus sign followed by at least one
digit.  Fractional and exponent parts are outside the model (numbers are
modelled as integers). -/
def scanNumber (cs : List Char) : Except String (PyVal × List Char) :=
  match cs with
  | [] => .error "Expecting value"
  | c :: rest =>
    if c = '-' then
      match rest.takeWhile isDigitCh with
      | [] => .error "Expecting value"
      | ds => .ok (.int (-(digitsToNat ds : Int)), rest.dropWhile isDigitCh)
    else
      match cs.takeWhile isDigitCh with
      | [] => .error "Expecting value"
      | ds => .ok (.int (digitsToNat ds : Int), cs.dropWhile isDigitCh)

/-- Parse the members of a JSON object after the opening brace, given a
parser `pv` for the member values.  One fuel unit is spent per member, and
every member consumes at least one input character, so fuel `length + 1`
always suffices. -/
def parseMembersF (pv : List Char → Except String (PyVal × List Char)) :
    Nat → List Char → Except String (List (String × PyVal) × List Char)
  | 0, _ => .error "Expecting property name enclosed in double quotes"
  | fuel + 1, cs =>
    match skipWs cs with
    | [] => .error "Expecting property name enclosed in double quotes"
    | c :: rest =>
      if c = '"' then
        match scanStringF (rest.length + 1) rest with
        | .error e => .error e
        | .ok (kchars, rest2) =>
          match skipWs rest2 with
          | [] => .error "Expecting colon delimiter"
          | c2 :: rest3 =>
            if c2 = ':' then
              match pv rest3 with
              | .error e => .error e
              | .ok (v, rest4) =>
                match skipWs rest4 with
                | [] => .error "Expecting comma delimiter"
                | c3 :: rest5 =>
                  if c3 = ',' then
                    match parseMembersF pv fuel rest5 with
                    | .error e => .error e
                    | .ok (ms, rest6) => .ok ((String.mk kchars, v) :: ms, rest6)
                  else if c3 = rbrace then .ok ([(String.mk kchars, v)], rest5)
                  else .error "Expecting comma delimiter"
            else .error "Expecting colon delimiter"
      else .error "Expecting property name enclosed in double quotes"

/-- Parse the items of a JSON array after the opening bracket, given a
parser `pv` for the item values. -/
def parseItemsF (pv : List Char → Except String (PyVal × List Char)) :
    Nat → List Char → Except String (List PyVal × List Char)
  | 0, _ => .error "Expecting value"
  | fuel + 1, cs =>
    match pv cs with
    | .error e => .error e
    | .ok (v, rest) =>
      match skipWs rest with
      | [] => .error "Expecting comma delimiter"
      | c :: rest2 =>
        if c = ',' then
          match parseItemsF pv fuel rest2 with
          | .error e => .error e
          | .ok (vs, rest3) => .ok (v :: vs, rest3)
        else if c = ']' then .ok ([v], rest2)
        else .error "Expecting comma delimiter"

/-- One unfolding step of the value parser; `pv` parses strictly deeper
values.  Leading whitespace is skipped, then the head character dispatches
on the value form, as in the Python scanner. -/
def parseStep (pv : List Char → Except String (PyVal × List Char))
    (cs : List Char) : Except String (PyVal × List Char) :=
  match skipWs cs with
  | [] => .error "Expecting value"
  | c :: rest =>
    if c = lbrace then
      match skipWs rest with
      | [] => .error "Expecting property name enclosed in double quotes"
      | c2 :: rest2 =>
        if c2 = rbrace then .ok (.dict [], rest2)
        else
          match parseMembersF pv (rest.length + 1) rest with
          | .error e => .error e
          | .ok (ms, r) => .ok (.dict ms, r)
    else if c = '[' then
      match skipWs rest with
      | [] => .error "Expecting value"
      | c2 :: rest2 =>
        if c2 = ']' then .ok (.list [], rest2)
        else
          match parseItemsF pv (rest.length + 1) rest with
          | .error e => .error e
          | .ok (vs, r) => .ok (.list vs, r)
    else if c = '"' then
      match scanStringF (rest.length + 1) rest with
      | .error e => .error e
      | .ok (scs, r) => .ok (.str (String.mk scs), r)
    else if c = 't' then
      match rest with
      | 'r' :: 'u' :: 'e' :: r => .ok (.bool true, r)
      | _ => .error "Expecting value"
    else if c = 'f' then
      match rest with
      | 'a' :: 'l' :: 's' :: 'e' :: r => .ok (.bool false, r)
      | _ => .error "Expecting value"
    else if c = 'n' then
      match rest with
      | 'u' :: 'l' :: 'l' :: r => .ok (.null, r)
      | _ => .error "Expecting value"
    else if c = '-' ∨ isDigitCh c = true then scanNumber (c :: rest)
    else .error "Expecting value"

/-- Fuel-indexed JSON value parser; the fuel bounds the nesting depth. -/
def parseValue (fuel : Nat) : List Char → Except String (PyVal × List Char) :=
  Nat.rec (fun _ => .error "Too deeply nested") (fun _ ih => parseStep ih) fuel

theorem parseValue_zero (cs : List Char) :
    parseValue 0 cs = .error "Too deeply nested" := rfl

theorem parseValue_succ (fuel : Nat) :
    parseValue (fuel + 1) = parseStep (parseValue fuel) := rfl

/-- Embedding of Python `json.loads`: parse one JSON value and require that
only whitespace follows it. -/
def loads (s : String) : Except String PyVal :=
  match parseValue (s.length + 1) s.toList with
  | .error e => .error e
  | .ok (v, rest) => if skipWs rest = [] then .ok v else .error "Extra data"

/-- Python `str.find` for one character: index of the first occurrence, or
`-1` when absent. -/
def pyFind (cs : List Char) (c : Char) : Int :=
  match cs.findIdx? (fun x => x = c) with
  | some i => (i : Int)
  | none => -1

/-- Python `str.rfind` for one character: index of the last occurrence, or
`-1` when absent. -/
def pyRFind (cs : List Char) (c : Char) : Int :=
  match cs.reverse.findIdx? (fun x => x = c) with
  | some i => ((cs.length - 1 - i : Nat) : Int)
  | none => -1

/-- The outer-brace slicing step shared by both variants:

    start = raw_output.find("§")
    end = raw_output.rfind("§§") + 1
    if start != -1 and end > start: json_str = raw_output[start:end]

(with braces in place of the section signs).  Returns the slice when the
guard holds, `none` otherwise. -/
def extractCore (raw : String) : Option String :=
  let cs := raw.toList
  let start := pyFind cs lbrace
  let stop := pyRFind cs rbrace + 1
  if start ≠ -1 ∧ stop > start then
    some (String.mk ((cs.take stop.toNat).drop start.toNat))
  else none

/-- Field lookup in a Verdict-shaped value. -/
def getField (v : PyVal) (k : String) : Option PyVal :=
  match v with
  | .dict kvs => kvs.lookup k
  | _ => none

/-- Prompt construction shared by both variants:

    user_input_json = json.dumps(context, indent=2)
    full_prompt = f"...INPUT DATA...DECISION (JSON):"

A non-serializable context makes `json.dumps` raise, which propagates as
`.error`. -/
def buildPrompt (si : String) (ctx : PyVal) : Except String String :=
  (pyDumps ctx).map (fun u =>
    si ++ "\n\nINPUT DATA:\n" ++ u ++ "\n\nDECISION (JSON):")

namespace Inference

/-- The system instruction of `backend/python/inference.py`, transcribed
verbatim (braces written via escapes). -/
def SYSTEM_INSTRUCTION : String := "
You are Caretaker AI.

You are NOT a human assistant.
You are a system authority responsible for protecting long-term health and productivity.

Your role is to:
- Monitor user health signals
- Remember long-term patterns
- Decide actions
- Enforce recovery when needed
- Provide brief factual explanations AFTER decisions

You do NOT motivate.
You do NOT comfort.
You do NOT negotiate.

--------------------------------------------------
CORE PRINCIPLES
--------------------------------------------------

1. Presence First
- Opening the app counts as minimum daily success.
- Continuity is maintained if app is opened.

2. Authority
- You decide actions.
- The user does not choose tasks.
- Recovery cannot be bypassed.

3. Stability Over Intensity
- Prevent crashes.
- Favor early recovery over overwork.

--------------------------------------------------
EXPLANATIONS
--------------------------------------------------
- Explanations come AFTER decisions.
- Explanations are factual and short.
- Format: \"Reason: <signal>.\"

--------------------------------------------------
OUTPUT FORMAT
--------------------------------------------------
Respond ONLY with valid JSON:
\x7b
  \"systemStatus\": \"...\",
  \"action\": \"...\",
  \"explanation\": \"...\"
\x7d
"

/-- The NoJsonFound fallback Verdict of the one-shot variant. -/
def noJsonVerdict : PyVal :=
  .dict [("systemStatus", .str "Monitoring."),
         ("action", .str "Review log."),
         ("explanation", .str "Reason: Output parsing error.")]

/-- The ParseException fallback Verdict of the one-shot variant. -/
def parseExcVerdict (e : String) : PyVal :=
  .dict [("systemStatus", .str "Error"),
         ("action", .str "None"),
         ("explanation", .str ("Reason: Parsing exception " ++ e))]

/-- The InferenceException fallback Verdict of the one-shot variant. -/
def inferExcVerdict (e : String) : PyVal :=
  .dict [("systemStatus", .str "Error"),
         ("action", .str "None"),
         ("explanation", .str ("Reason: Inference exception " ++ e))]

/-- Response extraction of the one-shot variant (the inner try block of
`main`): slice between the outer braces; on a missing span print the
NoJsonFound fallback; on a parse failure the inner handler prints the
ParseException fallback.  Total by construction, like the source. -/
def extract (raw : String) : PyVal :=
  match extractCore raw with
  | some s =>
    match loads s with
    | .ok parsed => parsed
    | .error e => parseExcVerdict e
  | none => noJsonVerdict

/-- The generation-and-extraction part of `main`, after the context has been
read: build the prompt, call the model, extract.  Exceptions from prompt
construction or generation reach the outer handler, which prints the
InferenceException fallback. -/
def run (ctx : PyVal) (gen : String → Except String String) : PyVal :=
  match buildPrompt SYSTEM_INSTRUCTION ctx with
  | .error e => inferExcVerdict e
  | .ok prompt =>
    match gen prompt with
    | .error e => inferExcVerdict e
    | .ok raw => extract raw

/-- The whole of `main` as a function from the standard-input text and the
model capability to the JSON value printed on standard output (`none` when
nothing is printed).  Empty input returns before doing anything; a stdin
that is not valid JSON raises inside the outer try, whose handler prints
the InferenceException fallback. -/
def main (stdin : String) (gen : String → Except String String) : Option PyVal :=
  if stdin = "" then none
  else
    match loads stdin with
    | .error e => some (inferExcVerdict e)
    | .ok ctx => some (run ctx gen)

end Inference

namespace Server

/-- The system instruction of `backend/python/server.py`, transcribed
verbatim. -/
def SYSTEM_INSTRUCTION : String := "
You are Caretaker AI.
You are the Voice of the System.

Your Input: A strict \"Decision Object\" (Status, Action, capacity, etc.) decided by the Rule Engine.
Your Role: Explain this decision to the user.

--------------------------------------------------
RULES
--------------------------------------------------
1. DO NOT CHANGE THE DECISION.
   - If action is \"Sleep Protocol\", you must enforce it.
   - If status is \"SURVIVAL\", you must convey urgency.

2. TONE: \"Calm Authority\"
   - ❌ \"You are going to crash!\" (Too emotional)
   - ✅ \"Performance degradation is calculated at 85% probability.\" (Factual)

3. EXPLANATION STRUCTURE
   - State the Decision (Action).
   - Cite the Biological Cost (Capacity/Debt).
   - Close with Inevitability.

--------------------------------------------------
OUTPUT FORMAT (JSON ONLY)
--------------------------------------------------
\x7b
  \"explanation\": \"Your calm, authoritative explanation here.\"
\x7d
"

/-- The no-JSON fallback Verdict of the service variant. -/
def noJsonVerdict : PyVal :=
  .dict [("systemStatus", .str "Monitoring."),
         ("action", .str "Continue normal activities."),
         ("explanation", .str "Reason: System check complete.")]

/-- The single error envelope of the service variant, returned with HTTP
status 500 by the generic exception handler of the route. -/
def errorVerdict (e : String) : PyVal :=
  .dict [("systemStatus", .str "Error. Monitoring active."),
         ("action", .str "None."),
         ("explanation", .str ("Reason: " ++ e))]

/-- Response extraction of the service variant: same outer-brace slicing,
but there is no inner handler, so a parse failure propagates (`.error`) to
the generic handler of the route. -/
def extract (raw : String) : Except String PyVal :=
  match extractCore raw with
  | some s => loads s
  | none => .ok noJsonVerdict

/-- The `/inference` route handler body (inside `with lock:`), as a function
from the parsed request body and the model capability to the response JSON
value and HTTP status code.  Every exception raised in the try block —
prompt serialization, generation, or JSON parse of the slice — is mapped by
the single `except` clause to the `errorVerdict` envelope with status
500. -/
def inference (ctx : PyVal) (gen : String → Except String String) :
    PyVal × Nat :=
  match buildPrompt SYSTEM_INSTRUCTION ctx with
  | .error e => (errorVerdict e, 500)
  | .ok prompt =>
    match gen prompt with
    | .error e => (errorVerdict e, 500)
    | .ok raw =>
      match extract raw with
      | .ok v => (v, 200)
      | .error e => (errorVerdict e, 500)

end Server

namespace LockModel

/-- The stages a service request thread passes through.  `building`,
`generating` and `extracting` are the stages executed inside `with lock:`
(the coordinator critical section); `generating` is the stage during which
`llm.create_chat_completion` is running. -/
inductive Phase where
  | idle : Phase
  | waiting : Phase
  | building : Phase
  | generating : Phase
  | extracting : Phase
  | done : Phase
deriving DecidableEq

/-- A thread holds the mutual-exclusion lock exactly while it is inside the
`with lock:` block. -/
def holdsLock : Phase → Bool
  | .building => true
  | .generating => true
  | .extracting => true
  | _ => false

/-- A system state maps each of the `n` request threads to its phase. -/
def SState (n : Nat) := Fin n → Phase

/-- Interleaving semantics of the service: a request arrives, a waiting
thread acquires the lock only when no thread holds it (the semantics of
`threading.Lock`), then walks prompt building → generation → extraction,
and releases the lock when it leaves the `with` block. -/
inductive Step {n : Nat} : SState n → SState n → Prop where
  | arrive (s : SState n) (t : Fin n) :
      s t = .idle → Step s (Function.update s t .waiting)
  | acquire (s : SState n) (t : Fin n) :
      s t = .waiting → (∀ u, holdsLock (s u) = false) →
      Step s (Function.update s t .building)
  | startGen (s : SState n) (t : Fin n) :
      s t = .building → Step s (Function.update s t .generating)
  | finishGen (s : SState n) (t : Fin n) :
      s t = .generating → Step s (Function.update s t .extracting)
  | release (s : SState n) (t : Fin n) :
      s t = .extracting → Step s (Function.update s t .done)

/-- All threads start idle. -/
def init (n : Nat) : SState n := fun _ => .idle

/-- States reachable from the initial state by interleaving steps. -/
inductive Reachable {n : Nat} : SState n → Prop where
  | init : Reachable (init n)
  | step {s s2 : SState n} : Reachable s → Step s s2 → Reachable s2

/-- The mutual-exclusion invariant: at most one thread is inside the
critical section. -/
def MutexInv {n : Nat} (s : SState n) : Prop :=
  ∀ t u : Fin n, holdsLock (s t) = true → holdsLock (s u) = true → t = u

theorem mutexInv_init (n : Nat) : MutexInv (init n) := by
  intro t u ht _
  simp [init, holdsLock] at ht

theorem mutexInv_update_free {n : Nat} {s : SState n}
    (hs : MutexInv s) (t : Fin n) (p : Phase) (hp : holdsLock p = false) :
    MutexInv (Function.update s t p) := by
  intro a b ha hb
  by_cases hat : a = t
  · rw [hat, Function.update_same] at ha
    rw [hp] at ha
    exact absurd ha (by simp)
  · by_cases hbt : b = t
    · rw [hbt, Function.update_same] at hb
      rw [hp] at hb
      exact absurd hb (by simp)
    · rw [Function.update_noteq hat] at ha
      rw [Function.update_noteq hbt] at hb
      exact hs a b ha hb

theorem mutexInv_update_holder {n : Nat} {s : SState n}
    (hs : MutexInv s) (t : Fin n) (p : Phase)
    (ht : holdsLock (s t) = true) :
    MutexInv (Function.update s t p) := by
  intro a b ha hb
  by_cases hat : a = t
  · by_cases hbt : b = t
    · rw [hat, hbt]
    · rw [Function.update_noteq hbt] at hb
      rw [hat]
      exact (hs b t hb ht).symm
  · rw [Function.update_noteq hat] at ha
    by_cases hbt : b = t
    · rw [hbt]
      exact hs a t ha ht
    · rw [Function.update_noteq hbt] at hb
      exact hs a b ha hb

theorem mutexInv_update_acquire {n : Nat} {s : SState n}
    (hfree : ∀ u, holdsLock (s u) = false) (t : Fin n) (p : Phase) :
    MutexInv (Function.update s t p) := by
  intro a b ha hb
  by_cases hat : a = t
  · by_cases hbt : b = t
    · rw [hat, hbt]
    · rw [Function.update_noteq hbt] at hb
      rw [hfree b] at hb
      exact absurd hb (by simp)
  · rw [Function.update_noteq hat] at ha
    rw [hfree a] at ha
    exact absurd ha (by simp)

theorem mutexInv_step {n : Nat} {s s2 : SState n}
    (hs : MutexInv s) (hstep : Step s s2) : MutexInv s2 := by
  cases hstep with
  | arrive t hidle => exact mutexInv_update_free hs t .waiting rfl
  | acquire t hw hfree => exact mutexInv_update_acquire hfree t .building
  | startGen t hbuild => exact mutexInv_update_holder hs t .generating (by rw [hbuild]; rfl)
  | finishGen t hgen => exact mutexInv_update_holder hs t .extracting (by rw [hgen]; rfl)
  | release t hext => exact mutexInv_update_free hs t .done rfl

theorem mutexInv_reachable {n : Nat} {s : SState n}
    (h : Reachable s) : MutexInv s := by
  induction h with
  | init => exact mutexInv_init n
  | step _ hstep ih => exact mutexInv_step ih hstep

end LockModel

/-- The JSON-serializable fragment of `PyVal`: everything except values that
contain an opaque `PyVal.obj`. -/
inductive Jsonic : PyVal → Prop where
  | null : Jsonic .null
  | bool (b : Bool) : Jsonic (.bool b)
  | int (n : Int) : Jsonic (.int n)
  | str (s : String) : Jsonic (.str s)
  | list {xs : List PyVal} : (∀ x ∈ xs, Jsonic x) → Jsonic (.list xs)
  | dict {kvs : List (String × PyVal)} : (∀ p ∈ kvs, Jsonic p.2) →
      Jsonic (.dict kvs)

theorem depth_le_depthL {x : PyVal} {xs : List PyVal} (h : x ∈ xs) :
    depth x ≤ depthL xs := by
  induction xs with
  | nil => cases h
  | cons y ys ih =>
    rcases List.mem_cons.mp h with rfl | hmem
    · rw [depthL]
      exact le_max_left _ _
    · rw [depthL]
      exact le_trans (ih hmem) (le_max_right _ _)

theorem depth_le_depthD {p : String × PyVal} {kvs : List (String × PyVal)}
    (h : p ∈ kvs) : depth p.2 ≤ depthD kvs := by
  induction kvs with
  | nil => cases h
  | cons q qs ih =>
    rcases List.mem_cons.mp h with rfl | hmem
    · rw [depthD]
      exact le_max_left _ _
    · rw [depthD]
      exact le_trans (ih hmem) (le_max_right _ _)

theorem except_isOk_iff {ε α : Type} (e : Except ε α) :
    e.isOk = true ↔ ∃ a, e = .ok a := by
  cases e with
  | error x => simp [Except.isOk, Except.toBool]
  | ok a => simp [Except.isOk, Except.toBool]

theorem mapM_isOk {α β : Type} (g : α → Except String β) (l : List α)
    (h : ∀ x ∈ l, (g x).isOk = true) : (l.mapM g).isOk = true := by
  induction l with
  | nil => rfl
  | cons x xs ih =>
    rw [List.mapM_cons]
    obtain ⟨y, hy⟩ := (except_isOk_iff (g x)).mp (h x (List.mem_cons_self x xs))
    obtain ⟨ys, hys⟩ := (except_isOk_iff (xs.mapM g)).mp
      (ih (fun a ha => h a (List.mem_cons_of_mem x ha)))
    rw [hy, hys]
    rfl

theorem dumpV_ok {v : PyVal} (hv : Jsonic v) :
    ∀ fuel lvl, depth v ≤ fuel → (dumpV fuel lvl v).isOk = true := by
  induction hv with
  | null =>
    intro fuel lvl h
    cases fuel with
    | zero =>
      have hd : depth PyVal.null = 1 := rfl
      omega
    | succ f => rfl
  | bool b =>
    intro fuel lvl h
    cases fuel with
    | zero =>
      have hd : depth (PyVal.bool b) = 1 := rfl
      omega
    | succ f => cases b <;> rfl
  | int n =>
    intro fuel lvl h
    cases fuel with
    | zero =>
      have hd : depth (PyVal.int n) = 1 := rfl
      omega
    | succ f => rfl
  | str s =>
    intro fuel lvl h
    cases fuel with
    | zero =>
      have hd : depth (PyVal.str s) = 1 := rfl
      omega
    | succ f => rfl
  | @list xs hxs ih =>
    intro fuel lvl h
    cases fuel with
    | zero =>
      have hd : depth (PyVal.list xs) = 1 + depthL xs := rfl
      omega
    | succ f =>
      rw [dumpV_succ]
      cases xs with
      | nil => rfl
      | cons x xs2 =>
        rw [dumpStep]
        have hmap : ((x :: xs2).mapM (dumpV f (lvl + 1))).isOk = true := by
          apply mapM_isOk
          intro a ha
          apply ih a ha f (lvl + 1)
          calc depth a ≤ depthL (x :: xs2) := depth_le_depthL ha
            _ ≤ f := by
                have hd : depth (PyVal.list (x :: xs2)) = 1 + depthL (x :: xs2) := rfl
                omega
        obtain ⟨parts, hparts⟩ :=
          (except_isOk_iff ((x :: xs2).mapM (dumpV f (lvl + 1)))).mp hmap
        rw [hparts]
        rfl
  | @dict kvs hkvs ih =>
    intro fuel lvl h
    cases fuel with
    | zero =>
      have hd : depth (PyVal.dict kvs) = 1 + depthD kvs := rfl
      omega
    | succ f =>
      rw [dumpV_succ]
      cases kvs with
      | nil => rfl
      | cons kv kvs2 =>
        rw [dumpStep]
        have hmap : (((kv :: kvs2).mapM (fun p =>
            (dumpV f (lvl + 1) p.2).map (fun d =>
              spaces (2 * (lvl + 1)) ++ escString p.1 ++ ':' :: ' ' :: d)))).isOk
              = true := by
          apply mapM_isOk
          intro p hp
          have : (dumpV f (lvl + 1) p.2).isOk = true := by
            apply ih p hp f (lvl + 1)
            calc depth p.2 ≤ depthD (kv :: kvs2) := depth_le_depthD hp
              _ ≤ f := by
                  have hd : depth (PyVal.dict (kv :: kvs2)) = 1 + depthD (kv :: kvs2) := rfl
                  omega
          obtain ⟨d, hd⟩ := (except_isOk_iff _).mp this
          rw [hd]
          rfl
        obtain ⟨parts, hparts⟩ := (except_isOk_iff _).mp hmap
        rw [hparts]
        rfl

theorem pyDumps_ok {v : PyVal} (hv : Jsonic v) : (pyDumps v).isOk = true := by
  rw [pyDumps]
  obtain ⟨out, hout⟩ := (except_isOk_iff _).mp (dumpV_ok hv (depth v) 0 le_rfl)
  rw [hout]
  rfl

/-- The fallback Verdicts are all dicts of three string fields; they are
trivially serializable. -/
theorem jsonic_three_strs (k1 k2 k3 a b c : String) :
    Jsonic (.dict [(k1, .str a), (k2, .str b), (k3, .str c)]) := by
  apply Jsonic.dict
  intro p hp
  rcases List.mem_cons.mp hp with rfl | hp2
  · exact Jsonic.str a
  rcases List.mem_cons.mp hp2 with rfl | hp3
  · exact Jsonic.str b
  rcases List.mem_cons.mp hp3 with rfl | hp4
  · exact Jsonic.str c
  · cases hp4

theorem parseMembersF_jsonic
    (pv : List Char → Except String (PyVal × List Char))
    (hpv : ∀ cs v r, pv cs = .ok (v, r) → Jsonic v) :
    ∀ fuel cs ms r, parseMembersF pv fuel cs = .ok (ms, r) →
      ∀ p ∈ ms, Jsonic p.2 := by
  intro fuel
  induction fuel with
  | zero =>
    intro cs ms r h
    exact Except.noConfusion h
  | succ f ih =>
    intro cs ms r h
    rw [parseMembersF] at h
    repeat' split at h
    any_goals exact Except.noConfusion h
    all_goals
      cases h
      intro p hp
      rcases List.mem_cons.mp hp with rfl | hp2
      · exact hpv _ _ _ (by assumption)
      · first
          | exact ih _ _ _ (by assumption) _ hp2
          | cases hp2

theorem parseItemsF_jsonic
    (pv : List Char → Except String (PyVal × List Char))
    (hpv : ∀ cs v r, pv cs = .ok (v, r) → Jsonic v) :
    ∀ fuel cs vs r, parseItemsF pv fuel cs = .ok (vs, r) →
      ∀ x ∈ vs, Jsonic x := by
  intro fuel
  induction fuel with
  | zero =>
    intro cs vs r h
    exact Except.noConfusion h
  | succ f ih =>
    intro cs vs r h
    rw [parseItemsF] at h
    repeat' split at h
    any_goals exact Except.noConfusion h
    all_goals
      cases h
      intro x hx
      rcases List.mem_cons.mp hx with rfl | hx2
      · exact hpv _ _ _ (by assumption)
      · first
          | exact ih _ _ _ (by assumption) _ hx2
          | cases hx2

theorem scanNumber_jsonic (cs : List Char) (v : PyVal) (r : List Char)
    (h : scanNumber cs = .ok (v, r)) : Jsonic v := by
  rw [scanNumber.eq_def] at h
  repeat' split at h
  any_goals exact Except.noConfusion h
  all_goals cases h
  all_goals exact Jsonic.int _

theorem parseStep_jsonic
    (pv : List Char → Except String (PyVal × List Char))
    (hpv : ∀ cs v r, pv cs = .ok (v, r) → Jsonic v) :
    ∀ cs v r, parseStep pv cs = .ok (v, r) → Jsonic v := by
  intro cs v r h
  rw [parseStep] at h
  repeat' split at h
  any_goals exact Except.noConfusion h
  all_goals first
    | exact scanNumber_jsonic _ _ _ h
    | (cases h
       first
        | exact Jsonic.null
        | exact Jsonic.bool _
        | exact Jsonic.str _
        | exact Jsonic.dict (fun p hp => absurd hp (List.not_mem_nil p))
        | exact Jsonic.list (fun x hx => absurd hx (List.not_mem_nil x))
        | exact Jsonic.dict (parseMembersF_jsonic pv hpv _ _ _ _ (by assumption))
        | exact Jsonic.list (parseItemsF_jsonic pv hpv _ _ _ _ (by assumption)))

theorem parseValue_jsonic :
    ∀ fuel cs v r, parseValue fuel cs = .ok (v, r) → Jsonic v := by
  intro fuel
  induction fuel with
  | zero =>
    intro cs v r h
    exact Except.noConfusion h
  | succ f ih =>
    intro cs v r h
    rw [parseValue_succ] at h
    exact parseStep_jsonic (parseValue f) (fun cs2 v2 r2 h2 => ih cs2 v2 r2 h2) cs v r h

theorem loads_jsonic (s : String) (v : PyVal) (h : loads s = .ok v) :
    Jsonic v := by
  rw [loads] at h
  repeat' split at h
  any_goals exact Except.noConfusion h
  cases h
  exact parseValue_jsonic _ _ _ _ (by assumption)

theorem findIdx?_drop {α : Type} (p : α → Bool) :
    ∀ (cs : List α) (i : Nat), cs.findIdx? p = some i →
      ∃ y t, cs.drop i = y :: t ∧ p y = true := by
  intro cs
  induction cs with
  | nil =>
    intro i h
    simp [List.findIdx?_nil] at h
  | cons x xs ih =>
    intro i h
    rw [List.findIdx?_cons] at h
    by_cases hp : p x
    · rw [if_pos hp] at h
      cases h
      exact ⟨x, xs, rfl, hp⟩
    · rw [if_neg hp] at h
      rw [List.findIdx?_succ] at h
      cases hfx : xs.findIdx? p with
      | none => rw [hfx] at h; cases h
      | some j =>
        rw [hfx] at h
        simp only [Option.map_some'] at h
        cases h
        obtain ⟨y, t, hyt, hpy⟩ := ih j hfx
        exact ⟨y, t, by simpa using hyt, hpy⟩

theorem pyFind_of_not_mem {cs : List Char} {c : Char} (h : c ∉ cs) :
    pyFind cs c = -1 := by
  rw [pyFind]
  have : cs.findIdx? (fun x => x = c) = none := by
    rw [List.findIdx?_eq_none_iff]
    intro x hx
    simp only [decide_eq_false_iff_not]
    intro hxc
    exact h (hxc ▸ hx)
  rw [this]

theorem pyRFind_of_not_mem {cs : List Char} {c : Char} (h : c ∉ cs) :
    pyRFind cs c = -1 := by
  rw [pyRFind]
  have : cs.reverse.findIdx? (fun x => x = c) = none := by
    rw [List.findIdx?_eq_none_iff]
    intro x hx
    simp only [decide_eq_false_iff_not]
    intro hxc
    exact h (hxc ▸ (List.mem_reverse.mp hx))
  rw [this]

theorem pyFind_nonneg {cs : List Char} {c : Char} (h : pyFind cs c ≠ -1) :
    0 ≤ pyFind cs c := by
  rw [pyFind]
  cases hf : cs.findIdx? (fun x => x = c) with
  | none => exact absurd (by rw [pyFind, hf]) h
  | some i => exact Int.ofNat_nonneg i

theorem pyRFind_ge {cs : List Char} {c : Char} : -1 ≤ pyRFind cs c := by
  rw [pyRFind]
  cases hf : cs.reverse.findIdx? (fun x => x = c) with
  | none => exact le_refl (-1)
  | some i => exact le_trans (by omega) (Int.ofNat_nonneg ((cs.length - 1 - i : Nat)))

/-- When the source guard `start != -1 and end > start` fails — no brace,
or the last closing brace before the first opening one — no slice is
produced. -/
theorem extractCore_none {raw : String}
    (h : lbrace ∉ raw.toList ∨ rbrace ∉ raw.toList ∨
      pyRFind raw.toList rbrace < pyFind raw.toList lbrace) :
    extractCore raw = none := by
  simp only [extractCore]
  rw [if_neg]
  intro hguard
  obtain ⟨hne, hgt⟩ := hguard
  rcases h with h1 | h2 | h3
  · exact hne (pyFind_of_not_mem h1)
  · have hr : pyRFind raw.toList rbrace = -1 := pyRFind_of_not_mem h2
    have hs : 0 ≤ pyFind raw.toList lbrace := pyFind_nonneg hne
    omega
  · omega

/-- A produced slice starts with the opening brace found by `find`. -/
theorem extractCore_head {raw : String} {s : String}
    (h : extractCore raw = some s) : ∃ t, s.toList = lbrace :: t := by
  simp only [extractCore] at h
  split at h
  · rename_i hguard
    obtain ⟨hne, hgt⟩ := hguard
    cases h
    cases hf : raw.toList.findIdx? (fun x => x = lbrace) with
    | none =>
      rw [pyFind, hf] at hne
      exact absurd rfl hne
    | some i =>
      obtain ⟨y, t, hyt, hpy⟩ := findIdx?_drop _ raw.toList i hf
      have hy : y = lbrace := by simpa using hpy
      have hstart : pyFind raw.toList lbrace = (i : Int) := by rw [pyFind, hf]
      have hik : (i : Int) < pyRFind raw.toList rbrace + 1 := by
        rw [hstart] at hgt
        exact hgt
      have hik2 : i < (pyRFind raw.toList rbrace + 1).toNat := by omega
      set k := (pyRFind raw.toList rbrace + 1).toNat with hk
      have hstart2 : (pyFind raw.toList lbrace).toNat = i := by
        rw [hstart]
        rfl
      rw [hstart2]
      have hsplit : (raw.toList.take k).drop i = (raw.toList.drop i).take (k - i) := by
        have hki : i + (k - i) = k := by omega
        rw [List.take_drop, hki]
      rw [hsplit, hyt]
      obtain ⟨m, hm⟩ : ∃ m, k - i = m + 1 := ⟨k - i - 1, by omega⟩
      rw [hm]
      exact ⟨t.take m, by simp [hy]⟩
  · exact Option.noConfusion h

theorem skipWs_lbrace {t : List Char} : skipWs (lbrace :: t) = lbrace :: t := by
  rw [skipWs, List.dropWhile_cons]
  rw [if_neg]
  intro hws
  simp [isWsChar, lbrace, Char.ofNat] at hws

/-- Every successful parse of a text that starts with an opening brace
yields a dict: the scanner dispatches on the head character. -/
theorem parseStep_dict (pv : List Char → Except String (PyVal × List Char))
    {cs : List Char} {v : PyVal} {r t : List Char}
    (h : parseStep pv cs = .ok (v, r)) (hsk : skipWs cs = lbrace :: t) :
    v.isDict = true := by
  rw [parseStep] at h
  rw [hsk] at h
  dsimp only at h
  rw [if_pos rfl] at h
  repeat' split at h
  any_goals exact Except.noConfusion h
  all_goals cases h
  all_goals rfl

theorem loads_dict {s : String} {v : PyVal} {t : List Char}
    (h : loads s = .ok v) (hh : s.toList = lbrace :: t) :
    v.isDict = true := by
  rw [loads] at h
  cases hp : parseValue (s.length + 1) s.toList with
  | error e => rw [hp] at h; exact Except.noConfusion h
  | ok p =>
    obtain ⟨v2, rest⟩ := p
    rw [hp] at h
    dsimp only at h
    by_cases hws : skipWs rest = []
    · rw [if_pos hws] at h
      cases h
      rw [parseValue_succ] at hp
      exact parseStep_dict (parseValue s.length) hp (by rw [hh, skipWs_lbrace])
    · rw [if_neg hws] at h
      exact Except.noConfusion h

theorem inference_extract_shape (raw : String) :
    (Inference.extract raw).isDict = true ∧
    (pyDumps (Inference.extract raw)).isOk = true := by
  rw [Inference.extract]
  cases hc : extractCore raw with
  | none =>
    exact ⟨rfl, pyDumps_ok (jsonic_three_strs _ _ _ _ _ _)⟩
  | some s =>
    dsimp only
    cases hl : loads s with
    | error e =>
      exact ⟨rfl, pyDumps_ok (jsonic_three_strs _ _ _ _ _ _)⟩
    | ok parsed =>
      obtain ⟨t, ht⟩ := extractCore_head hc
      exact ⟨loads_dict hl ht, pyDumps_ok (loads_jsonic s parsed hl)⟩

theorem server_extract_shape (raw : String) (v : PyVal)
    (h : Server.extract raw = .ok v) :
    v.isDict = true ∧ (pyDumps v).isOk = true := by
  rw [Server.extract] at h
  cases hc : extractCore raw with
  | none =>
    rw [hc] at h
    cases h
    exact ⟨rfl, pyDumps_ok (jsonic_three_strs _ _ _ _ _ _)⟩
  | some s =>
    rw [hc] at h
    dsimp only at h
    obtain ⟨t, ht⟩ := extractCore_head hc
    exact ⟨loads_dict h ht, pyDumps_ok (loads_jsonic s v h)⟩

/-- Claim C1: for every valid JSON context object and every behaviour of the
model gateway, the one-shot pipeline and the service `/inference` handler
never raise to their caller (both embeddings are total: every exception path
of the source is one of the modelled handler branches) and return a value
that is a JSON object — never an array, scalar or null — and that
serializes back to JSON text, whether it is a genuine model-derived Verdict
or a fallback Verdict. -/
theorem c1_handle_always_returns_json_object
    (ctx : PyVal) (gen : String → Except String String) :
    (Inference.run ctx gen).isDict = true ∧
    (pyDumps (Inference.run ctx gen)).isOk = true ∧
    ((Server.inference ctx gen).1).isDict = true ∧
    (pyDumps (Server.inference ctx gen).1).isOk = true := by
  have hone : (Inference.run ctx gen).isDict = true ∧
      (pyDumps (Inference.run ctx gen)).isOk = true := by
    rw [Inference.run]
    cases buildPrompt Inference.SYSTEM_INSTRUCTION ctx with
    | error e => exact ⟨rfl, pyDumps_ok (jsonic_three_strs _ _ _ _ _ _)⟩
    | ok prompt =>
      dsimp only
      cases gen prompt with
      | error e => exact ⟨rfl, pyDumps_ok (jsonic_three_strs _ _ _ _ _ _)⟩
      | ok raw => exact inference_extract_shape raw
  have hsrv : ((Server.inference ctx gen).1).isDict = true ∧
      (pyDumps (Server.inference ctx gen).1).isOk = true := by
    rw [Server.inference]
    cases buildPrompt Server.SYSTEM_INSTRUCTION ctx with
    | error e => exact ⟨rfl, pyDumps_ok (jsonic_three_strs _ _ _ _ _ _)⟩
    | ok prompt =>
      dsimp only
      cases gen prompt with
      | error e => exact ⟨rfl, pyDumps_ok (jsonic_three_strs _ _ _ _ _ _)⟩
      | ok raw =>
        dsimp only
        cases hx : Server.extract raw with
        | error e => exact ⟨rfl, pyDumps_ok (jsonic_three_strs _ _ _ _ _ _)⟩
        | ok v => exact server_extract_shape raw v hx
  exact ⟨hone.1, hone.2, hsrv.1, hsrv.2⟩

/-- Claim C2 is corrected: on brace-free raw output the service variant does
not use the explanation "Reason: Output parsing error." — its neutral
fallback says "Reason: System check complete." (and a different action), so
the claimed common explanation text is wrong for that variant. -/
theorem c2_counterexample :
    Server.extract "I cannot comply." = .ok Server.noJsonVerdict ∧
    getField Server.noJsonVerdict "explanation" =
      some (.str "Reason: System check complete.") ∧
    ("Reason: System check complete." : String) ≠
      "Reason: Output parsing error." := by
  exact ⟨rfl, rfl, by decide⟩

/-- Claim C2 (amended): when the raw output has no opening brace, no closing
brace, or its last closing brace precedes its first opening brace, each
variant returns its own fixed NoJsonFound fallback: the one-shot variant
status "Monitoring.", action "Review log.", explanation "Reason: Output
parsing error."; the service variant status "Monitoring.", action "Continue
normal activities.", explanation "Reason: System check complete.". -/
theorem c2_amended_nojson_fallback (raw : String)
    (h : lbrace ∉ raw.toList ∨ rbrace ∉ raw.toList ∨
      pyRFind raw.toList rbrace < pyFind raw.toList lbrace) :
    Inference.extract raw = Inference.noJsonVerdict ∧
    Server.extract raw = .ok Server.noJsonVerdict := by
  have hc := extractCore_none h
  constructor
  · rw [Inference.extract, hc]
  · rw [Server.extract, hc]

theorem c2_amended_witness :
    (lbrace ∉ "I cannot comply.".toList ∨
      rbrace ∉ "I cannot comply.".toList ∨
      pyRFind "I cannot comply.".toList rbrace <
        pyFind "I cannot comply.".toList lbrace) ∧
    Inference.extract "I cannot comply." = Inference.noJsonVerdict ∧
    Server.extract "I cannot comply." = .ok Server.noJsonVerdict := by
  have h : lbrace ∉ "I cannot comply.".toList ∨
      rbrace ∉ "I cannot comply.".toList ∨
      pyRFind "I cannot comply.".toList rbrace <
        pyFind "I cannot comply.".toList lbrace := Or.inl (by decide)
  obtain ⟨h1, h2⟩ := c2_amended_nojson_fallback "I cannot comply." h
  exact ⟨h, h1, h2⟩

/-- Claim C3: whenever the outer-brace slice parses as JSON, both variants
return exactly the parsed object — extraction does no transformation beyond
the slicing, and no field such as `action` is required. -/
theorem c3_extraction_passthrough (raw s : String) (parsed : PyVal)
    (h1 : extractCore raw = some s) (h2 : loads s = .ok parsed) :
    Inference.extract raw = parsed ∧ Server.extract raw = .ok parsed := by
  constructor
  · rw [Inference.extract, h1]
    dsimp only
    rw [h2]
  · rw [Server.extract, h1]
    exact h2

theorem c3_extraction_passthrough_witness :
    extractCore "noise \x7b\"foo\": 1\x7d tail" = some "\x7b\"foo\": 1\x7d" ∧
    loads "\x7b\"foo\": 1\x7d" = .ok (.dict [("foo", .int 1)]) ∧
    Inference.extract "noise \x7b\"foo\": 1\x7d tail" =
      .dict [("foo", .int 1)] ∧
    Server.extract "noise \x7b\"foo\": 1\x7d tail" =
      .ok (.dict [("foo", .int 1)]) := by
  have h1 : extractCore "noise \x7b\"foo\": 1\x7d tail" =
      some "\x7b\"foo\": 1\x7d" := rfl
  have h2 : loads "\x7b\"foo\": 1\x7d" = .ok (.dict [("foo", .int 1)]) := rfl
  obtain ⟨h3, h4⟩ := c3_extraction_passthrough _ _ _ h1 h2
  exact ⟨h1, h2, h3, h4⟩

/-- Claim C8: empty standard input makes the one-shot adapter return before
reading a context: no Verdict and no error envelope is printed, whatever
the model capability would do. -/
theorem c8_empty_stdin_no_output (gen : String → Except String String) :
    Inference.main "" gen = none := rfl

/-- Claim C9: a non-empty standard input that is not valid JSON raises in
`json.loads(input_str)` inside the outer try of `main`, so the process
prints the InferenceException fallback (status "Error", action "None",
explanation prefixed "Reason: Inference exception"), not a NoJsonFound or
ParseException fallback. -/
theorem c9_invalid_stdin_inference_exception (s e : String)
    (gen : String → Except String String)
    (h1 : s ≠ "") (h2 : loads s = .error e) :
    Inference.main s gen = some (Inference.inferExcVerdict e) ∧
    getField (Inference.inferExcVerdict e) "systemStatus" =
      some (.str "Error") ∧
    getField (Inference.inferExcVerdict e) "action" = some (.str "None") ∧
    getField (Inference.inferExcVerdict e) "explanation" =
      some (.str ("Reason: Inference exception " ++ e)) := by
  refine ⟨?_, rfl, rfl, rfl⟩
  rw [Inference.main, if_neg h1, h2]

theorem c9_invalid_stdin_witness :
    ("hello" : String) ≠ "" ∧
    loads "hello" = .error "Expecting value" ∧
    Inference.main "hello" (fun _ => .ok "") =
      some (Inference.inferExcVerdict "Expecting value") := by
  have h1 : ("hello" : String) ≠ "" := by decide
  have h2 : loads "hello" = .error "Expecting value" := rfl
  exact ⟨h1, h2,
    (c9_invalid_stdin_inference_exception "hello" "Expecting value"
      (fun _ => .ok "") h1 h2).1⟩

/-- Claim C4 is corrected: in the service variant a parse failure of the
outer-brace slice is caught by the generic route handler, not by a
dedicated ParseException branch — the envelope has status
"Error. Monitoring active." (not "Error"), action "None." (not "None"),
and its explanation is "Reason: <message>" without the words "Parsing
exception". -/
theorem c4_counterexample :
    Server.inference (.dict []) (fun _ => .ok "\x7bbad\x7d") =
      (Server.errorVerdict "Expecting property name enclosed in double quotes",
       500) ∧
    getField
      (Server.errorVerdict "Expecting property name enclosed in double quotes")
      "systemStatus" = some (.str "Error. Monitoring active.") ∧
    ("Error. Monitoring active." : String) ≠ "Error" ∧
    getField
      (Server.errorVerdict "Expecting property name enclosed in double quotes")
      "action" = some (.str "None.") ∧
    ("None." : String) ≠ "None" ∧
    ¬ List.isPrefixOf "Reason: Parsing exception".toList
      "Reason: Expecting property name enclosed in double quotes".toList
      = true := by
  exact ⟨rfl, rfl, by decide, rfl, by decide, by decide⟩

/-- Claim C4 (amended): when the outer-brace slice fails to parse, the
one-shot variant returns the ParseException fallback (status "Error",
action "None", explanation "Reason: Parsing exception <message>"), while in
the service variant the parse exception escapes extraction and the generic
handler returns the 500 envelope (status "Error. Monitoring active.",
action "None.", explanation "Reason: <message>"). -/
theorem c4_amended_parse_failure (raw s e : String) (ctx : PyVal)
    (h1 : extractCore raw = some s) (h2 : loads s = .error e) :
    Inference.extract raw = Inference.parseExcVerdict e ∧
    getField (Inference.parseExcVerdict e) "explanation" =
      some (.str ("Reason: Parsing exception " ++ e)) ∧
    Server.extract raw = .error e ∧
    (∀ p, buildPrompt Server.SYSTEM_INSTRUCTION ctx = .ok p →
      Server.inference ctx (fun _ => .ok raw) =
        (Server.errorVerdict e, 500)) := by
  have hserver : Server.extract raw = .error e := by
    rw [Server.extract, h1]
    exact h2
  refine ⟨?_, rfl, hserver, ?_⟩
  · rw [Inference.extract, h1]
    dsimp only
    rw [h2]
  · intro p hp
    rw [Server.inference, hp]
    dsimp only
    rw [hserver]

theorem c4_amended_witness :
    extractCore "\x7boops\x7d" = some "\x7boops\x7d" ∧
    loads "\x7boops\x7d" =
      .error "Expecting property name enclosed in double quotes" ∧
    Inference.extract "\x7boops\x7d" =
      Inference.parseExcVerdict
        "Expecting property name enclosed in double quotes" := by
  have h1 : extractCore "\x7boops\x7d" = some "\x7boops\x7d" := rfl
  have h2 : loads "\x7boops\x7d" =
      .error "Expecting property name enclosed in double quotes" := rfl
  exact ⟨h1, h2,
    (c4_amended_parse_failure _ _ _ (.dict []) h1 h2).1⟩

/-- Claim C5 is corrected: the service variant has no InferenceException
wording at all — a generation failure is mapped by the same generic handler
to status "Error. Monitoring active.", action "None.", explanation
"Reason: <message>" (no "Inference exception" prefix), and parse failures
surface as 500 exactly like generation failures, so the two categories are
not distinguished by the HTTP adapter. -/
theorem c5_counterexample :
    Server.inference (.dict []) (fun _ => .error "model crashed") =
      (Server.errorVerdict "model crashed", 500) ∧
    getField (Server.errorVerdict "model crashed") "systemStatus" =
      some (.str "Error. Monitoring active.") ∧
    ("Error. Monitoring active." : String) ≠ "Error" ∧
    getField (Server.errorVerdict "model crashed") "explanation" =
      some (.str "Reason: model crashed") ∧
    ¬ List.isPrefixOf "Reason: Inference exception".toList
      "Reason: model crashed".toList = true ∧
    (Server.inference (.dict []) (fun _ => .ok "\x7bnope\x7d")).2 = 500 := by
  exact ⟨rfl, rfl, by decide, rfl, by decide, rfl⟩

/-- Claim C5 (amended): the one-shot coordinator converts any prompt
construction or generation exception into the InferenceException fallback
(status "Error", action "None", explanation "Reason: Inference exception
<message>"), a category distinct from its ParseException fallback; the
service variant instead maps every exception — prompt construction,
generation or parse alike — to its single 500 envelope (status
"Error. Monitoring active.", action "None.", explanation
"Reason: <message>"), so there parse failures surface as 500 too.  `ctx`
with a successful serialization exercises the generation-exception branch;
`ctx2` whose serialization raises (a non-serializable context) exercises
the prompt-construction-exception branch, for every gateway behaviour,
which the raise prevents from ever being invoked. -/
theorem c5_amended_inference_exception (ctx ctx2 : PyVal) (u e e2 : String)
    (gen : String → Except String String)
    (h : pyDumps ctx = .ok u) (h2 : pyDumps ctx2 = .error e2) :
    Inference.run ctx (fun _ => .error e) = Inference.inferExcVerdict e ∧
    getField (Inference.inferExcVerdict e) "systemStatus" =
      some (.str "Error") ∧
    getField (Inference.inferExcVerdict e) "action" = some (.str "None") ∧
    getField (Inference.inferExcVerdict e) "explanation" =
      some (.str ("Reason: Inference exception " ++ e)) ∧
    Server.inference ctx (fun _ => .error e) =
      (Server.errorVerdict e, 500) ∧
    Inference.run ctx2 gen = Inference.inferExcVerdict e2 ∧
    Server.inference ctx2 gen = (Server.errorVerdict e2, 500) := by
  refine ⟨?_, rfl, rfl, rfl, ?_, ?_, ?_⟩
  · rw [Inference.run, buildPrompt, h]
    rfl
  · rw [Server.inference, buildPrompt, h]
    rfl
  · rw [Inference.run, buildPrompt, h2]
    rfl
  · rw [Server.inference, buildPrompt, h2]
    rfl

theorem c5_amended_witness :
    pyDumps (.dict []) = .ok "\x7b\x7d" ∧
    pyDumps (.obj "set") =
      .error "Object of type set is not JSON serializable" ∧
    Inference.run (.dict []) (fun _ => .error "boom") =
      Inference.inferExcVerdict "boom" ∧
    Server.inference (.dict []) (fun _ => .error "boom") =
      (Server.errorVerdict "boom", 500) ∧
    Inference.run (.obj "set") (fun _ => .ok "ignored") =
      Inference.inferExcVerdict
        "Object of type set is not JSON serializable" ∧
    Server.inference (.obj "set") (fun _ => .ok "ignored") =
      (Server.errorVerdict "Object of type set is not JSON serializable",
       500) := by
  have h : pyDumps (.dict []) = .ok "\x7b\x7d" := rfl
  have h2 : pyDumps (.obj "set") =
      .error "Object of type set is not JSON serializable" := rfl
  have h3 := c5_amended_inference_exception (.dict []) (.obj "set")
    "\x7b\x7d" "boom" "Object of type set is not JSON serializable"
    (fun _ => .ok "ignored") h h2
  exact ⟨h, h2, h3.1, h3.2.2.2.2.1, h3.2.2.2.2.2.1, h3.2.2.2.2.2.2⟩

/-- Claim C10: every value produced by a successful `json.loads` of the
standard input is JSON-serializable, so the serialization step of the
one-shot prompt builder can never fail: the SerializationError failure mode
is unreachable under this pipeline. -/
theorem c10_parsed_values_always_serializable (s : String) (v : PyVal)
    (h : loads s = .ok v) : (pyDumps v).isOk = true :=
  pyDumps_ok (loads_jsonic s v h)

theorem c10_parsed_values_witness :
    loads "[1, \x7b\"a\": null\x7d]" =
      .ok (.list [.int 1, .dict [("a", .null)]]) ∧
    (pyDumps (.list [.int 1, .dict [("a", .null)]])).isOk = true := by
  have h : loads "[1, \x7b\"a\": null\x7d]" =
      .ok (.list [.int 1, .dict [("a", .null)]]) := rfl
  exact ⟨h, c10_parsed_values_always_serializable _ _ h⟩

theorem char_valid_nat (c : Char) :
    c.toNat < 55296 ∨ (57343 < c.toNat ∧ c.toNat < 1114112) := c.valid

theorem char_eq_of_toNat {c d : Char} (h : c = d) : c.toNat = d.toNat :=
  congrArg Char.toNat h

/-- A continuation is digit-safe when it does not start with a decimal
digit, so that number lexing stops exactly at the printed numeral. -/
def restOk (rest : List Char) : Prop :=
  ∀ c, rest.head? = some c → isDigitCh c = false

theorem restOk_nil : restOk [] := by
  intro c hc
  cases hc

theorem restOk_cons {c : Char} {t : List Char} (h : isDigitCh c = false) :
    restOk (c :: t) := by
  intro d hd
  cases hd
  exact h

theorem spaces_ws {n : Nat} : ∀ c ∈ spaces n, isWsChar c = true := by
  intro c hc
  rw [spaces] at hc
  rw [List.eq_of_mem_replicate hc]
  rfl

theorem skipWs_append_ws {ws : List Char} (h : ∀ c ∈ ws, isWsChar c = true) :
    ∀ cs, skipWs (ws ++ cs) = skipWs cs := by
  induction ws with
  | nil => intro cs; rfl
  | cons w ws2 ih =>
    intro cs
    rw [List.cons_append, skipWs, List.dropWhile_cons,
      if_pos (h w (List.mem_cons_self w ws2))]
    exact ih (fun c hc => h c (List.mem_cons_of_mem w hc)) cs

theorem skipWs_cons_not {c : Char} {t : List Char} (h : isWsChar c = false) :
    skipWs (c :: t) = c :: t := by
  rw [skipWs, List.dropWhile_cons, if_neg]
  simp [h]

theorem parseValue_wsDrop {ws : List Char}
    (h : ∀ c ∈ ws, isWsChar c = true) (fuel : Nat) (cs : List Char) :
    parseValue fuel (ws ++ cs) = parseValue fuel cs := by
  cases fuel with
  | zero => rfl
  | succ f =>
    rw [parseValue_succ, parseStep, parseStep, skipWs_append_ws h]

theorem parseMembersF_wsDrop
    (pv : List Char → Except String (PyVal × List Char)) {ws : List Char}
    (h : ∀ c ∈ ws, isWsChar c = true) (fuel : Nat) (cs : List Char) :
    parseMembersF pv fuel (ws ++ cs) = parseMembersF pv fuel cs := by
  cases fuel with
  | zero => rfl
  | succ f =>
    rw [parseMembersF, parseMembersF, skipWs_append_ws h]

theorem isDigitCh_bounds {c : Char} (h : isDigitCh c = true) :
    48 ≤ c.toNat ∧ c.toNat ≤ 57 := by
  rw [isDigitCh] at h
  simp only [Bool.and_eq_true, decide_eq_true_eq] at h
  exact h

theorem toNat_ofNat_valid {m : Nat} (h : m < 55296) :
    (Char.ofNat m).toNat = m := by
  rw [Char.ofNat, dif_pos (Or.inl h)]
  rfl

theorem isDigitCh_not_ws {c : Char} (h : isDigitCh c = true) :
    isWsChar c = false := by
  obtain ⟨h1, h2⟩ := isDigitCh_bounds h
  rw [isWsChar]
  simp only [Bool.or_eq_false_iff, decide_eq_false_iff_not]
  have hsp : (' ').toNat = 32 := rfl
  have hta : ('\t').toNat = 9 := rfl
  have hnl : ('\n').toNat = 10 := rfl
  have hcr : ('\r').toNat = 13 := rfl
  refine ⟨⟨⟨?_, ?_⟩, ?_⟩, ?_⟩ <;>
    (intro hc; have h3 := char_eq_of_toNat hc; omega)

theorem escapeChar_length_pos (c : Char) : 1 ≤ (escapeChar c).length := by
  rw [escapeChar]
  repeat' split
  all_goals simp [uEscape]

theorem escList_length_ge : ∀ l : List Char, l.length ≤ (escList l).length := by
  intro l
  induction l with
  | nil => exact le_refl 0
  | cons c cs ih =>
    rw [escList, List.length_append, List.length_cons]
    have := escapeChar_length_pos c
    omega

theorem takeWhile_all_append {p : Char → Bool} {l rest : List Char}
    (hall : ∀ x ∈ l, p x = true) (hrest : ∀ c, rest.head? = some c → p c = false) :
    (l ++ rest).takeWhile p = l ∧ (l ++ rest).dropWhile p = rest := by
  induction l with
  | nil =>
    simp only [List.nil_append]
    cases rest with
    | nil => exact ⟨rfl, rfl⟩
    | cons c t =>
      have hc : p c = false := hrest c rfl
      rw [List.takeWhile_cons, List.dropWhile_cons, if_neg (by simp [hc]),
        if_neg (by simp [hc])]
      exact ⟨rfl, rfl⟩
  | cons x xs ih =>
    have hx : p x = true := hall x (List.mem_cons_self x xs)
    obtain ⟨h1, h2⟩ := ih (fun a ha => hall a (List.mem_cons_of_mem x ha))
    rw [List.cons_append, List.takeWhile_cons, List.dropWhile_cons,
      if_pos (by simp [hx]), if_pos (by simp [hx]), h1, h2]
    exact ⟨rfl, rfl⟩

theorem natDigitsAux_digits : ∀ fuel n acc,
    (∀ c ∈ acc, isDigitCh c = true) →
    ∀ c ∈ natDigitsAux fuel n acc, isDigitCh c = true := by
  intro fuel
  induction fuel with
  | zero => intro n acc hacc; exact hacc
  | succ f ih =>
    intro n acc hacc c hc
    rw [natDigitsAux] at hc
    split at hc
    · rcases List.mem_cons.mp hc with rfl | hmem
      · rw [isDigitCh, digitChar]
        rename_i hn
        have : (Char.ofNat (48 + n)).toNat = 48 + n :=
          toNat_ofNat_valid (by omega)
        simp only [this]
        simp only [Bool.and_eq_true, decide_eq_true_eq]
        omega
      · exact hacc c hmem
    · refine ih (n / 10) _ ?_ c hc
      intro d hd
      rcases List.mem_cons.mp hd with rfl | hmem
      · rw [isDigitCh, digitChar]
        have h10 : n % 10 < 10 := Nat.mod_lt n (by omega)
        have : (Char.ofNat (48 + n % 10)).toNat = 48 + n % 10 :=
          toNat_ofNat_valid (by omega)
        simp only [this]
        simp only [Bool.and_eq_true, decide_eq_true_eq]
        omega
      · exact hacc d hmem

theorem natDigits_digits (n : Nat) : ∀ c ∈ natDigits n, isDigitCh c = true :=
  natDigitsAux_digits (n + 1) n [] (fun c hc => absurd hc (List.not_mem_nil c))

theorem natDigitsAux_ne_nil : ∀ fuel n acc, acc ≠ [] ∨ 1 ≤ fuel →
    natDigitsAux fuel n acc ≠ [] := by
  intro fuel
  induction fuel with
  | zero =>
    intro n acc h
    rcases h with h | h
    · exact h
    · omega
  | succ f ih =>
    intro n acc h
    rw [natDigitsAux]
    split
    · exact List.cons_ne_nil _ _
    · exact ih (n / 10) _ (Or.inl (List.cons_ne_nil _ _))

theorem natDigits_ne_nil (n : Nat) : natDigits n ≠ [] :=
  natDigitsAux_ne_nil (n + 1) n [] (Or.inr (by omega))

theorem hexDigit_isHex {d : Nat} (h : d < 16) : isHex (hexDigit d) = true := by
  rw [hexDigit, isHex]
  split
  · rw [toNat_ofNat_valid (show 48 + d < 55296 by omega)]
    simp only [Bool.or_eq_true, Bool.and_eq_true, decide_eq_true_eq]
    omega
  · rw [toNat_ofNat_valid (show 87 + d < 55296 by omega)]
    simp only [Bool.or_eq_true, Bool.and_eq_true, decide_eq_true_eq]
    rename_i hd
    omega

theorem hexVal_hexDigit {d : Nat} (h : d < 16) : hexVal (hexDigit d) = d := by
  rw [hexDigit]
  split
  · rw [hexVal, toNat_ofNat_valid (by omega)]
    rw [if_pos (by omega)]
    omega
  · rename_i hd
    rw [hexVal, toNat_ofNat_valid (by omega)]
    rw [if_neg (by omega), if_neg (by omega)]
    omega

theorem hex4_decode {m : Nat} (h : m < 65536) :
    hexVal (hexDigit (m / 4096 % 16)) * 4096 +
      hexVal (hexDigit (m / 256 % 16)) * 256 +
      hexVal (hexDigit (m / 16 % 16)) * 16 +
      hexVal (hexDigit (m % 16)) = m := by
  rw [hexVal_hexDigit (Nat.mod_lt _ (by omega)),
      hexVal_hexDigit (Nat.mod_lt _ (by omega)),
      hexVal_hexDigit (Nat.mod_lt _ (by omega)),
      hexVal_hexDigit (Nat.mod_lt _ (by omega))]
  omega

theorem digit_facts {c : Char} (hc : isDigitCh c = true) :
    c ≠ lbrace ∧ c ≠ '[' ∧ c ≠ '"' ∧ c ≠ 't' ∧ c ≠ 'f' ∧ c ≠ 'n' ∧
    c ≠ '-' ∧ c ≠ ']' ∧ c ≠ rbrace ∧ c ≠ ',' := by
  obtain ⟨h1, h2⟩ := isDigitCh_bounds hc
  have e1 : lbrace.toNat = 123 := rfl
  have e2 : ('[').toNat = 91 := rfl
  have e3 : ('"').toNat = 34 := rfl
  have e4 : ('t').toNat = 116 := rfl
  have e5 : ('f').toNat = 102 := rfl
  have e6 : ('n').toNat = 110 := rfl
  have e7 : ('-').toNat = 45 := rfl
  have e8 : (']').toNat = 93 := rfl
  have e9 : rbrace.toNat = 125 := rfl
  have e10 : (',').toNat = 44 := rfl
  refine ⟨?_, ?_, ?_, ?_, ?_, ?_, ?_, ?_, ?_, ?_⟩ <;>
    (intro hq; have h3 := char_eq_of_toNat hq; omega)

theorem parseStep_digit (pv : List Char → Except String (PyVal × List Char))
    {c : Char} (hc : isDigitCh c = true) (t : List Char) :
    parseStep pv (c :: t) = scanNumber (c :: t) := by
  obtain ⟨n1, n2, n3, n4, n5, n6, n7, _, _, _⟩ := digit_facts hc
  rw [parseStep, skipWs_cons_not (isDigitCh_not_ws hc)]
  dsimp only
  rw [if_neg n1, if_neg n2, if_neg n3, if_neg n4, if_neg n5, if_neg n6,
    if_pos (Or.inr hc)]

theorem scanNumber_neg_run {l rest : List Char}
    (hl : ∀ x ∈ l, isDigitCh x = true) (hne : l ≠ []) (hrest : restOk rest) :
    scanNumber ('-' :: (l ++ rest)) =
      .ok (.int (-(digitsToNat l : Int)), rest) := by
  have hstep : scanNumber ('-' :: (l ++ rest)) =
      (match (l ++ rest).takeWhile isDigitCh with
       | [] => .error "Expecting value"
       | ds => .ok (.int (-(digitsToNat ds : Int)),
           (l ++ rest).dropWhile isDigitCh)) := rfl
  obtain ⟨h1, h2⟩ := takeWhile_all_append hl hrest
  rw [hstep, h1, h2]
  cases l with
  | nil => exact absurd rfl hne
  | cons d ds => rfl

theorem scanNumber_pos_run {c : Char} {l rest : List Char}
    (hc : isDigitCh c = true) (hl : ∀ x ∈ l, isDigitCh x = true)
    (hrest : restOk rest) :
    scanNumber ((c :: l) ++ rest) =
      .ok (.int (digitsToNat (c :: l) : Int), rest) := by
  have hall : ∀ x ∈ c :: l, isDigitCh x = true := by
    intro x hx
    rcases List.mem_cons.mp hx with rfl | hmem
    · exact hc
    · exact hl x hmem
  obtain ⟨h1, h2⟩ := takeWhile_all_append hall hrest
  obtain ⟨_, _, _, _, _, _, n7, _, _, _⟩ := digit_facts hc
  have hstep : scanNumber ((c :: l) ++ rest) =
      (if c = '-' then
        match (l ++ rest).takeWhile isDigitCh with
        | [] => .error "Expecting value"
        | ds => .ok (.int (-(digitsToNat ds : Int)),
            (l ++ rest).dropWhile isDigitCh)
      else
        match ((c :: l) ++ rest).takeWhile isDigitCh with
        | [] => .error "Expecting value"
        | ds => .ok (.int (digitsToNat ds : Int),
            ((c :: l) ++ rest).dropWhile isDigitCh)) := rfl
  rw [hstep, if_neg n7, h1, h2]

theorem head_ok_facts {c : Char} (h1 : isWsChar c = false) (h2 : c ≠ ']')
    (h3 : c ≠ rbrace) (h4 : c ≠ ',') :
    isWsChar c = false ∧ c ≠ ']' ∧ c ≠ rbrace ∧ c ≠ ',' := ⟨h1, h2, h3, h4⟩

/-- Everything the printer emits starts with a non-whitespace character that
is not a closing delimiter, so the parser dispatch always sees it first. -/
theorem dumpV_head {f lvl : Nat} {v : PyVal} {out : List Char}
    (h : dumpV f lvl v = .ok out) :
    ∃ c t, out = c :: t ∧ isWsChar c = false ∧ c ≠ ']' ∧ c ≠ rbrace ∧
      c ≠ ',' := by
  cases f with
  | zero => exact Except.noConfusion h
  | succ g =>
    rw [dumpV_succ] at h
    cases v with
    | null =>
      cases h
      exact ⟨'n', _, rfl, by decide, by decide, by decide, by decide⟩
    | bool b =>
      cases b
      · cases h
        exact ⟨'f', _, rfl, by decide, by decide, by decide, by decide⟩
      · cases h
        exact ⟨'t', _, rfl, by decide, by decide, by decide, by decide⟩
    | int n =>
      cases h
      rw [intChars]
      split
      · exact ⟨'-', _, rfl, by decide, by decide, by decide, by decide⟩
      · cases hnd : natDigits n.toNat with
        | nil => exact absurd hnd (natDigits_ne_nil n.toNat)
        | cons d ds =>
          have hd : isDigitCh d = true := by
            apply natDigits_digits n.toNat
            rw [hnd]
            exact List.mem_cons_self d ds
          obtain ⟨_, _, _, _, _, _, _, m8, m9, m10⟩ := digit_facts hd
          exact ⟨d, ds, rfl, isDigitCh_not_ws hd, m8, m9, m10⟩
    | str s =>
      cases h
      exact ⟨'"', _, rfl, by decide, by decide, by decide, by decide⟩
    | list xs =>
      cases xs with
      | nil =>
        cases h
        exact ⟨'[', _, rfl, by decide, by decide, by decide, by decide⟩
      | cons x xs2 =>
        dsimp only [dumpStep] at h
        cases hm : (x :: xs2).mapM (dumpV g (lvl + 1)) with
        | error e => rw [hm] at h; exact Except.noConfusion h
        | ok parts =>
          rw [hm] at h
          cases h
          exact ⟨'[', _, rfl, by decide, by decide, by decide, by decide⟩
    | dict kvs =>
      cases kvs with
      | nil =>
        cases h
        exact ⟨lbrace, _, rfl, by decide, by decide, by decide, by decide⟩
      | cons kv kvs2 =>
        dsimp only [dumpStep] at h
        cases hm : (kv :: kvs2).mapM (fun p =>
            (dumpV g (lvl + 1) p.2).map (fun d =>
              spaces (2 * (lvl + 1)) ++ escString p.1 ++ ':' :: ' ' :: d)) with
        | error e => rw [hm] at h; exact Except.noConfusion h
        | ok parts =>
          rw [hm] at h
          cases h
          exact ⟨lbrace, _, rfl, by decide, by decide, by decide, by decide⟩
    | obj d => exact Except.noConfusion h

theorem scanStringF_u_step (f : Nat) (d3 d2 d1 d0 : Char) (X : List Char) :
    scanStringF (f + 1) ('\\' :: 'u' :: d3 :: d2 :: d1 :: d0 :: X) =
      (if isHex d3 && isHex d2 && isHex d1 && isHex d0 then
        (let v := hexVal d3 * 4096 + hexVal d2 * 256 + hexVal d1 * 16 + hexVal d0
         if 55296 ≤ v ∧ v ≤ 56319 then
           (match X with
            | b :: u :: g1 :: g2 :: g3 :: g4 :: rest4 =>
              if b = '\\' ∧ u = 'u' ∧ isHex g1 ∧ isHex g2 ∧ isHex g3 ∧
                  isHex g4 then
                (let w := hexVal g1 * 4096 + hexVal g2 * 256 +
                    hexVal g3 * 16 + hexVal g4
                 if 56320 ≤ w ∧ w ≤ 57343 then
                   (scanStringF f rest4).map
                     (fun p => (surrogateChar v w :: p.1, p.2))
                 else (scanStringF f X).map
                   (fun p => (Char.ofNat 0 :: p.1, p.2)))
              else (scanStringF f X).map (fun p => (Char.ofNat 0 :: p.1, p.2))
            | _ => (scanStringF f X).map (fun p => (Char.ofNat 0 :: p.1, p.2)))
         else if 56320 ≤ v ∧ v ≤ 57343 then
           (scanStringF f X).map (fun p => (Char.ofNat 0 :: p.1, p.2))
         else (scanStringF f X).map (fun p => (Char.ofNat v :: p.1, p.2)))
      else .error "Invalid hexadecimal escape") := rfl

theorem scanStringF_lit_step (f : Nat) (c : Char) (T : List Char)
    (hq : ¬ c = '"') (hbs : ¬ c = '\\') (hc : ¬ c.toNat < 32) :
    scanStringF (f + 1) (c :: T) =
      (scanStringF f T).map (fun p => (c :: p.1, p.2)) := by
  rw [scanStringF.eq_def]
  dsimp only
  rw [if_neg hq, if_neg hbs, if_neg hc]

theorem scanStringF_escape :
    ∀ (l rest : List Char) (fuel : Nat), l.length < fuel →
      ∃ out, scanStringF fuel (escList l ++ '"' :: rest) = .ok (out, rest) := by
  intro l
  induction l with
  | nil =>
    intro rest fuel hf
    cases fuel with
    | zero => omega
    | succ f => exact ⟨[], rfl⟩
  | cons c l2 ih =>
    intro rest fuel hf
    cases fuel with
    | zero => simp at hf
    | succ f =>
      have hf2 : l2.length < f := by
        simp only [List.length_cons] at hf
        omega
      obtain ⟨out2, hout2⟩ := ih rest f hf2
      rw [escList, List.append_assoc]
      set T := escList l2 ++ '"' :: rest with hT
      by_cases hq : c = '"'
      · subst hq
        have hesc : escapeChar '"' = ['\\', '"'] := rfl
        rw [hesc]
        exact ⟨'"' :: out2, by
          have hstep : scanStringF (f + 1) ('\\' :: '"' :: T) =
              (scanStringF f T).map (fun p => ('"' :: p.1, p.2)) := rfl
          rw [List.cons_append, List.cons_append, List.nil_append, hstep, hout2]
          rfl⟩
      by_cases hbs : c = '\\'
      · subst hbs
        have hesc : escapeChar '\\' = ['\\', '\\'] := rfl
        rw [hesc]
        exact ⟨'\\' :: out2, by
          have hstep : scanStringF (f + 1) ('\\' :: '\\' :: T) =
              (scanStringF f T).map (fun p => ('\\' :: p.1, p.2)) := rfl
          rw [List.cons_append, List.cons_append, List.nil_append, hstep, hout2]
          rfl⟩
      by_cases h8 : c.toNat = 8
      · have hesc : escapeChar c = ['\\', 'b'] := by
          rw [escapeChar, if_neg hq, if_neg hbs, if_pos h8]
        rw [hesc]
        exact ⟨Char.ofNat 8 :: out2, by
          have hstep : scanStringF (f + 1) ('\\' :: 'b' :: T) =
              (scanStringF f T).map (fun p => (Char.ofNat 8 :: p.1, p.2)) := rfl
          rw [List.cons_append, List.cons_append, List.nil_append, hstep, hout2]
          rfl⟩
      by_cases h9 : c.toNat = 9
      · have hesc : escapeChar c = ['\\', 't'] := by
          rw [escapeChar, if_neg hq, if_neg hbs, if_neg h8, if_pos h9]
        rw [hesc]
        exact ⟨Char.ofNat 9 :: out2, by
          have hstep : scanStringF (f + 1) ('\\' :: 't' :: T) =
              (scanStringF f T).map (fun p => (Char.ofNat 9 :: p.1, p.2)) := rfl
          rw [List.cons_append, List.cons_append, List.nil_append, hstep, hout2]
          rfl⟩
      by_cases h10 : c.toNat = 10
      · have hesc : escapeChar c = ['\\', 'n'] := by
          rw [escapeChar, if_neg hq, if_neg hbs, if_neg h8, if_neg h9,
            if_pos h10]
        rw [hesc]
        exact ⟨'\n' :: out2, by
          have hstep : scanStringF (f + 1) ('\\' :: 'n' :: T) =
              (scanStringF f T).map (fun p => ('\n' :: p.1, p.2)) := rfl
          rw [List.cons_append, List.cons_append, List.nil_append, hstep, hout2]
          rfl⟩
      by_cases h12 : c.toNat = 12
      · have hesc : escapeChar c = ['\\', 'f'] := by
          rw [escapeChar, if_neg hq, if_neg hbs, if_neg h8, if_neg h9,
            if_neg h10, if_pos h12]
        rw [hesc]
        exact ⟨Char.ofNat 12 :: out2, by
          have hstep : scanStringF (f + 1) ('\\' :: 'f' :: T) =
              (scanStringF f T).map (fun p => (Char.ofNat 12 :: p.1, p.2)) := rfl
          rw [List.cons_append, List.cons_append, List.nil_append, hstep, hout2]
          rfl⟩
      by_cases h13 : c.toNat = 13
      · have hesc : escapeChar c = ['\\', 'r'] := by
          rw [escapeChar, if_neg hq, if_neg hbs, if_neg h8, if_neg h9,
            if_neg h10, if_neg h12, if_pos h13]
        rw [hesc]
        exact ⟨'\r' :: out2, by
          have hstep : scanStringF (f + 1) ('\\' :: 'r' :: T) =
              (scanStringF f T).map (fun p => ('\r' :: p.1, p.2)) := rfl
          rw [List.cons_append, List.cons_append, List.nil_append, hstep, hout2]
          rfl⟩
      by_cases hrange : (decide (c.toNat < 32) || decide (126 < c.toNat)) = true
      · have hesc0 : escapeChar c =
            (if c.toNat < 65536 then uEscape c.toNat
             else uEscape (55296 + (c.toNat - 65536) / 1024) ++
               uEscape (56320 + (c.toNat - 65536) % 1024)) := by
          rw [escapeChar, if_neg hq, if_neg hbs, if_neg h8, if_neg h9,
            if_neg h10, if_neg h12, if_neg h13, if_pos hrange]
        by_cases hbmp : c.toNat < 65536
        · rw [hesc0, if_pos hbmp, uEscape]
          simp only [List.cons_append, List.nil_append]
          rw [scanStringF_u_step]
          rw [if_pos (by
            rw [hexDigit_isHex (Nat.mod_lt _ (by omega)),
              hexDigit_isHex (Nat.mod_lt _ (by omega)),
              hexDigit_isHex (Nat.mod_lt _ (by omega)),
              hexDigit_isHex (Nat.mod_lt _ (by omega))]
            rfl)]
          have hv := hex4_decode hbmp
          simp only [hv]
          have hval := char_valid_nat c
          rw [if_neg (by omega), if_neg (by omega), hout2]
          exact ⟨Char.ofNat c.toNat :: out2, rfl⟩
        · rw [hesc0, if_neg hbmp, uEscape, uEscape]
          simp only [List.cons_append, List.nil_append, List.append_assoc]
          rw [scanStringF_u_step]
          have hval := char_valid_nat c
          have hdiv : (c.toNat - 65536) / 1024 < 1024 := by omega
          have hmod : (c.toNat - 65536) % 1024 < 1024 :=
            Nat.mod_lt _ (by omega)
          rw [if_pos (by
            rw [hexDigit_isHex (Nat.mod_lt _ (by omega)),
              hexDigit_isHex (Nat.mod_lt _ (by omega)),
              hexDigit_isHex (Nat.mod_lt _ (by omega)),
              hexDigit_isHex (Nat.mod_lt _ (by omega))]
            rfl)]
          have hv := hex4_decode
            (show 55296 + (c.toNat - 65536) / 1024 < 65536 by omega)
          simp only [hv]
          rw [if_pos (by omega)]
          rw [if_pos ⟨trivial, trivial,
            hexDigit_isHex (Nat.mod_lt _ (by omega)),
            hexDigit_isHex (Nat.mod_lt _ (by omega)),
            hexDigit_isHex (Nat.mod_lt _ (by omega)),
            hexDigit_isHex (Nat.mod_lt _ (by omega))⟩]
          have hw := hex4_decode
            (show 56320 + (c.toNat - 65536) % 1024 < 65536 by omega)
          simp only [hw]
          rw [if_pos (by omega), hout2]
          exact ⟨surrogateChar (55296 + (c.toNat - 65536) / 1024)
            (56320 + (c.toNat - 65536) % 1024) :: out2, rfl⟩
      · have hesc : escapeChar c = [c] := by
          rw [escapeChar, if_neg hq, if_neg hbs, if_neg h8, if_neg h9,
            if_neg h10, if_neg h12, if_neg h13, if_neg hrange]
        rw [hesc, List.cons_append, List.nil_append]
        simp only [Bool.or_eq_true, decide_eq_true_eq, not_or, not_lt] at hrange
        obtain ⟨hge, hle⟩ := hrange
        rw [scanStringF_lit_step f c T hq hbs (by omega), hout2]
        exact ⟨c :: out2, rfl⟩

theorem mapM_cons_ok {α β : Type} {f : α → Except String β} {a : α}
    {l : List α} {parts : List β} (h : (a :: l).mapM f = .ok parts) :
    ∃ b parts2, f a = .ok b ∧ l.mapM f = .ok parts2 ∧ parts = b :: parts2 := by
  rw [List.mapM_cons] at h
  cases hfa : f a with
  | error e =>
    rw [hfa] at h
    exact Except.noConfusion h
  | ok b =>
    rw [hfa] at h
    cases hfl : l.mapM f with
    | error e =>
      rw [hfl] at h
      exact Except.noConfusion h
    | ok parts2 =>
      rw [hfl] at h
      cases h
      exact ⟨b, parts2, rfl, rfl, rfl⟩

theorem joinSep_single {sep x : List Char} : joinSep sep [x] = x := rfl

theorem joinSep_cons2 {sep x y : List Char} {t : List (List Char)} :
    joinSep sep (x :: y :: t) = x ++ sep ++ joinSep sep (y :: t) := rfl

theorem except_map_ok {α β : Type} {f : α → β} {e : Except String α} {b : β}
    (h : e.map f = .ok b) : ∃ a, e = .ok a ∧ b = f a := by
  cases e with
  | error x => exact Except.noConfusion h
  | ok a =>
    cases h
    exact ⟨a, rfl, rfl⟩

theorem escString_shape (s : String) (X : List Char) :
    escString s ++ X = '"' :: (escList s.toList ++ '"' :: X) := by
  rw [escString]
  simp [List.append_assoc]

theorem escString_length (s : String) :
    (escString s).length = (escList s.toList).length + 2 := by
  rw [escString]
  simp

theorem restOk_not_digit {c : Char} {t : List Char}
    (h : isDigitCh c = false) : restOk (c :: t) := restOk_cons h

theorem skipWs_cons_ws {c : Char} {t : List Char} (h : isWsChar c = true) :
    skipWs (c :: t) = skipWs t := by
  rw [skipWs, skipWs, List.dropWhile_cons, if_pos h]

theorem parseValue_cons_ws {c : Char} (h : isWsChar c = true)
    (fuel : Nat) (cs : List Char) :
    parseValue fuel (c :: cs) = parseValue fuel cs := by
  have := @parseValue_wsDrop [c]
    (by intro x hx; rcases List.mem_singleton.mp hx with rfl; exact h) fuel cs
  simpa using this

theorem parseMembersF_cons_ws
    (pv : List Char → Except String (PyVal × List Char)) {c : Char}
    (h : isWsChar c = true) (fuel : Nat) (cs : List Char) :
    parseMembersF pv fuel (c :: cs) = parseMembersF pv fuel cs := by
  have := @parseMembersF_wsDrop pv [c]
    (by intro x hx; rcases List.mem_singleton.mp hx with rfl; exact h) fuel cs
  simpa using this

theorem member_walk (q m lvl : Nat) (k : String) (d SUFFIX : List Char)
    (w : PyVal) (hw : parseValue q (d ++ SUFFIX) = .ok (w, SUFFIX)) :
    ∃ kout : List Char, parseMembersF (parseValue q) (m + 1)
      ((spaces (2 * (lvl + 1)) ++ escString k ++ ':' :: ' ' :: d) ++ SUFFIX) =
      (match skipWs SUFFIX with
       | [] => .error "Expecting comma delimiter"
       | c3 :: rest5 =>
         if c3 = ',' then
           match parseMembersF (parseValue q) m rest5 with
           | .error e => .error e
           | .ok (ms, rest6) => .ok ((String.mk kout, w) :: ms, rest6)
         else if c3 = rbrace then .ok ([(String.mk kout, w)], rest5)
         else .error "Expecting comma delimiter") := by
  have hshape : (spaces (2 * (lvl + 1)) ++ escString k ++ ':' :: ' ' :: d) ++
      SUFFIX =
      spaces (2 * (lvl + 1)) ++ ('"' ::
        (escList k.toList ++ '"' :: (':' :: ' ' :: (d ++ SUFFIX)))) := by
    simp [escString, List.append_assoc]
  set AFTER := ':' :: ' ' :: (d ++ SUFFIX) with hAFTER
  obtain ⟨kout, hkout⟩ := scanStringF_escape k.toList AFTER
    ((escList k.toList ++ '"' :: AFTER).length + 1)
    (by
      have := escList_length_ge k.toList
      simp only [List.length_append, List.length_cons]
      omega)
  refine ⟨kout, ?_⟩
  rw [hshape, parseMembersF, skipWs_append_ws spaces_ws,
    skipWs_cons_not (show isWsChar '"' = false from rfl)]
  dsimp only
  rw [if_pos rfl, hkout]
  dsimp only
  rw [skipWs_cons_not (show isWsChar ':' = false from rfl)]
  dsimp only
  rw [if_pos rfl, parseValue_cons_ws (show isWsChar ' ' = true from rfl), hw]

theorem members_roundtrip (g q lvl : Nat)
    (IH : ∀ v d, dumpV g (lvl + 1) v = .ok d →
      ∀ rest2 fuel2, d.length < fuel2 → restOk rest2 →
      ∃ w, parseValue fuel2 (d ++ rest2) = .ok (w, rest2)) :
    ∀ (kvs : List (String × PyVal)) (parts : List (List Char)),
      kvs.mapM (fun p => (dumpV g (lvl + 1) p.2).map (fun d =>
        spaces (2 * (lvl + 1)) ++ escString p.1 ++ ':' :: ' ' :: d)) =
        .ok parts →
      kvs ≠ [] →
      ∀ (rest : List Char) (fuelM : Nat),
        (joinSep [',', '\n'] parts).length < fuelM →
        (joinSep [',', '\n'] parts).length < q →
        restOk rest →
        ∃ ms, parseMembersF (parseValue q) fuelM
          (joinSep [',', '\n'] parts ++
            '\n' :: (spaces (2 * lvl) ++ rbrace :: rest)) = .ok (ms, rest) := by
  intro kvs
  induction kvs with
  | nil =>
    intro parts hm hne
    exact absurd rfl hne
  | cons kv kvs2 ihk =>
    intro parts hm hne rest fuelM hfuel hq hrest
    obtain ⟨part0, parts2, hf0, hm2, hparts⟩ := mapM_cons_ok hm
    obtain ⟨d, hd, hpart0⟩ := except_map_ok hf0
    subst hparts
    subst hpart0
    have hdlen : d.length + 4 ≤
        (spaces (2 * (lvl + 1)) ++ escString kv.1 ++ ':' :: ' ' :: d).length := by
      simp only [List.length_append, List.length_cons, escString_length]
      omega
    cases fuelM with
    | zero => omega
    | succ m =>
      cases kvs2 with
      | nil =>
        rw [List.mapM_nil] at hm2
        cases hm2
        rw [joinSep_single] at hfuel hq ⊢
        set SUFFIX := '\n' :: (spaces (2 * lvl) ++ rbrace :: rest) with hSUF
        have hsufOk : restOk SUFFIX := restOk_cons rfl
        have hdq : d.length < q := by omega
        obtain ⟨w, hw⟩ := IH kv.2 d hd SUFFIX q hdq hsufOk
        obtain ⟨kout, hstep⟩ := member_walk q m lvl kv.1 d SUFFIX w hw
        refine ⟨[(String.mk kout, w)], ?_⟩
        rw [hstep, hSUF, skipWs_cons_ws (show isWsChar '\n' = true from rfl),
          skipWs_append_ws spaces_ws,
          skipWs_cons_not (show isWsChar rbrace = false from rfl)]
        dsimp only
        rw [if_neg (show ¬ rbrace = ',' by decide), if_pos rfl]
      | cons kv2 kvs3 =>
        obtain ⟨part1, parts3, hf1, hm3, hparts2⟩ := mapM_cons_ok hm2
        subst hparts2
        rw [joinSep_cons2] at hfuel hq ⊢
        have hp0len : 4 ≤
            (spaces (2 * (lvl + 1)) ++ escString kv.1 ++ ':' :: ' ' :: d).length := by
          omega
        set JT := joinSep [',', '\n'] (part1 :: parts3) with hJT
        have hshape2 :
            ((spaces (2 * (lvl + 1)) ++ escString kv.1 ++ ':' :: ' ' :: d) ++
              [',', '\n'] ++ JT) ++ '\n' :: (spaces (2 * lvl) ++ rbrace :: rest) =
            (spaces (2 * (lvl + 1)) ++ escString kv.1 ++ ':' :: ' ' :: d) ++
              (',' :: '\n' :: (JT ++ '\n' :: (spaces (2 * lvl) ++ rbrace :: rest))) := by
          simp [List.append_assoc]
        rw [hshape2]
        set SUFFIX := ',' :: '\n' ::
          (JT ++ '\n' :: (spaces (2 * lvl) ++ rbrace :: rest)) with hSUF
        have hsufOk : restOk SUFFIX := restOk_cons rfl
        have hdq : d.length < q := by
          simp only [List.length_append, List.length_cons] at hq
          omega
        obtain ⟨w, hw⟩ := IH kv.2 d hd SUFFIX q hdq hsufOk
        obtain ⟨kout, hstep⟩ := member_walk q m lvl kv.1 d SUFFIX w hw
        have hJTfuel : JT.length < m := by
          simp only [List.length_append, List.length_cons] at hfuel
          omega
        have hJTq : JT.length < q := by
          simp only [List.length_append, List.length_cons] at hq
          omega
        obtain ⟨ms2, hms2⟩ := ihk (part1 :: parts3) hm2
          (List.cons_ne_nil kv2 kvs3) rest m hJTfuel hJTq hrest
        refine ⟨(String.mk kout, w) :: ms2, ?_⟩
        rw [hstep, hSUF, skipWs_cons_not (show isWsChar ',' = false from rfl)]
        dsimp only
        rw [if_pos rfl,
          parseMembersF_cons_ws (parseValue q)
            (show isWsChar '\n' = true from rfl), hms2]

theorem items_roundtrip (g q lvl : Nat)
    (IH : ∀ v d, dumpV g (lvl + 1) v = .ok d →
      ∀ rest2 fuel2, d.length < fuel2 → restOk rest2 →
      ∃ w, parseValue fuel2 (d ++ rest2) = .ok (w, rest2)) :
    ∀ (xs : List PyVal) (parts : List (List Char)),
      xs.mapM (dumpV g (lvl + 1)) = .ok parts →
      xs ≠ [] →
      ∀ (ws rest : List Char) (fuelM : Nat),
        (∀ c ∈ ws, isWsChar c = true) →
        (joinSep [',', '\n']
          (parts.map (fun p => spaces (2 * (lvl + 1)) ++ p))).length < fuelM →
        (joinSep [',', '\n']
          (parts.map (fun p => spaces (2 * (lvl + 1)) ++ p))).length < q →
        restOk rest →
        ∃ vs, parseItemsF (parseValue q) fuelM
          (ws ++ (joinSep [',', '\n']
              (parts.map (fun p => spaces (2 * (lvl + 1)) ++ p)) ++
            '\n' :: (spaces (2 * lvl) ++ ']' :: rest))) = .ok (vs, rest) := by
  intro xs
  induction xs with
  | nil =>
    intro parts hm hne
    exact absurd rfl hne
  | cons x xs2 ihx =>
    intro parts hm hne ws rest fuelM hws hfuel hq hrest
    obtain ⟨p0, parts2, hd, hm2, hparts⟩ := mapM_cons_ok hm
    subst hparts
    cases fuelM with
    | zero => omega
    | succ m =>
      cases xs2 with
      | nil =>
        rw [List.mapM_nil] at hm2
        cases hm2
        simp only [List.map_cons, List.map_nil, joinSep_single] at hfuel hq ⊢
        set SUFFIX := '\n' :: (spaces (2 * lvl) ++ ']' :: rest) with hSUF
        have hsufOk : restOk SUFFIX := restOk_cons rfl
        have hdq : p0.length < q := by
          simp only [List.length_append] at hq
          omega
        obtain ⟨w, hw⟩ := IH x p0 hd SUFFIX q hdq hsufOk
        have hshape : ws ++ ((spaces (2 * (lvl + 1)) ++ p0) ++ SUFFIX) =
            (ws ++ spaces (2 * (lvl + 1))) ++ (p0 ++ SUFFIX) := by
          simp [List.append_assoc]
        refine ⟨[w], ?_⟩
        rw [parseItemsF, hshape,
          @parseValue_wsDrop (ws ++ spaces (2 * (lvl + 1)))
            (by
              intro c hc
              rcases List.mem_append.mp hc with h1 | h2
              · exact hws c h1
              · exact spaces_ws c h2) q (p0 ++ SUFFIX), hw]
        dsimp only
        rw [hSUF, skipWs_cons_ws (show isWsChar '\n' = true from rfl),
          skipWs_append_ws spaces_ws,
          skipWs_cons_not (show isWsChar ']' = false from rfl)]
        dsimp only
        rw [if_neg (show ¬ (']' : Char) = ',' by decide), if_pos rfl]
      | cons x2 xs3 =>
        obtain ⟨p1, parts3, hd1, hm3, hparts2⟩ := mapM_cons_ok hm2
        subst hparts2
        simp only [List.map_cons, joinSep_cons2] at hfuel hq ⊢
        set JT := joinSep [',', '\n']
          ((spaces (2 * (lvl + 1)) ++ p1) ::
            parts3.map (fun p => spaces (2 * (lvl + 1)) ++ p)) with hJT
        set SUFFIX := ',' :: '\n' ::
          (JT ++ '\n' :: (spaces (2 * lvl) ++ ']' :: rest)) with hSUF
        have hsufOk : restOk SUFFIX := restOk_cons rfl
        have hdq : p0.length < q := by
          simp only [List.length_append, List.length_cons] at hq
          omega
        obtain ⟨w, hw⟩ := IH x p0 hd SUFFIX q hdq hsufOk
        have hshape : ws ++ (((spaces (2 * (lvl + 1)) ++ p0) ++ [',', '\n'] ++
            JT) ++ '\n' :: (spaces (2 * lvl) ++ ']' :: rest)) =
            (ws ++ spaces (2 * (lvl + 1))) ++ (p0 ++ SUFFIX) := by
          rw [hSUF]
          simp [List.append_assoc]
        refine ?_
        rw [parseItemsF, hshape,
          @parseValue_wsDrop (ws ++ spaces (2 * (lvl + 1)))
            (by
              intro c hc
              rcases List.mem_append.mp hc with h1 | h2
              · exact hws c h1
              · exact spaces_ws c h2) q (p0 ++ SUFFIX), hw]
        dsimp only
        rw [hSUF, skipWs_cons_not (show isWsChar ',' = false from rfl)]
        dsimp only
        rw [if_pos rfl]
        have hJTfuel : JT.length < m := by
          simp only [List.length_append, List.length_cons] at hfuel
          omega
        have hJTq : JT.length < q := by
          simp only [List.length_append, List.length_cons] at hq
          omega
        obtain ⟨vs2, hvs2⟩ := ihx (p1 :: parts3) hm2 (List.cons_ne_nil x2 xs3)
          ['\n'] rest m (by intro c hc; rcases List.mem_singleton.mp hc with rfl; rfl)
          (by rw [hJT] at hJTfuel; simpa using hJTfuel)
          (by rw [hJT] at hJTq; simpa using hJTq) hrest
        simp only [List.singleton_append, List.map_cons] at hvs2
        rw [hvs2]
        exact ⟨w :: vs2, rfl⟩

theorem joinSep_head {sep a : List Char} {t : List (List Char)} {X : List Char} :
    ∃ Y, joinSep sep (a :: t) ++ X = a ++ Y := by
  cases t with
  | nil => exact ⟨X, by rw [joinSep_single]⟩
  | cons b t2 =>
    exact ⟨sep ++ (joinSep sep (b :: t2) ++ X), by
      rw [joinSep_cons2]
      simp [List.append_assoc]⟩

theorem dumpV_roundtrip : ∀ (g : Nat), ∀ (lvl : Nat) (v : PyVal) (out : List Char),
    dumpV g lvl v = .ok out →
    ∀ (rest : List Char) (fuelP : Nat), out.length < fuelP → restOk rest →
    ∃ w, parseValue fuelP (out ++ rest) = .ok (w, rest) := by
  intro g
  induction g with
  | zero =>
    intro lvl v out h
    exact Except.noConfusion h
  | succ f ihg =>
    intro lvl v out h rest fuelP hfuel hrest
    rw [dumpV_succ] at h
    cases v with
    | null =>
      cases h
      cases fuelP with
      | zero => simp at hfuel
      | succ q => exact ⟨.null, rfl⟩
    | bool b =>
      cases b
      · cases h
        cases fuelP with
        | zero => simp at hfuel
        | succ q => exact ⟨.bool false, rfl⟩
      · cases h
        cases fuelP with
        | zero => simp at hfuel
        | succ q => exact ⟨.bool true, rfl⟩
    | int n =>
      cases h
      cases fuelP with
      | zero => simp at hfuel
      | succ q =>
        rw [parseValue_succ, intChars]
        rw [intChars] at hfuel
        split
        · have hstep : parseStep (parseValue q)
              (('-' :: natDigits (-n).toNat) ++ rest) =
              scanNumber ('-' :: (natDigits (-n).toNat ++ rest)) := rfl
          rw [hstep, scanNumber_neg_run (natDigits_digits (-n).toNat)
            (natDigits_ne_nil (-n).toNat) hrest]
          exact ⟨.int (-(digitsToNat (natDigits (-n).toNat) : Int)), rfl⟩
        · cases hnd : natDigits n.toNat with
          | nil => exact absurd hnd (natDigits_ne_nil n.toNat)
          | cons d ds =>
            have hd : isDigitCh d = true := by
              apply natDigits_digits n.toNat
              rw [hnd]
              exact List.mem_cons_self d ds
            have hds : ∀ x ∈ ds, isDigitCh x = true := by
              intro x hx
              apply natDigits_digits n.toNat
              rw [hnd]
              exact List.mem_cons_of_mem d hx
            rw [List.cons_append, parseStep_digit (parseValue q) hd,
              ← List.cons_append, scanNumber_pos_run hd hds hrest]
            exact ⟨.int (digitsToNat (d :: ds) : Int), rfl⟩
    | str s =>
      cases h
      cases fuelP with
      | zero => simp at hfuel
      | succ q =>
        rw [parseValue_succ, escString_shape]
        set K := escList s.toList ++ '"' :: rest with hK
        have hstep : parseStep (parseValue q) ('"' :: K) =
            (match scanStringF (K.length + 1) K with
             | .error e => .error e
             | .ok (scs, r) => .ok (.str (String.mk scs), r)) := rfl
        obtain ⟨sout, hsout⟩ := scanStringF_escape s.toList rest (K.length + 1)
          (by
            have := escList_length_ge s.toList
            rw [hK]
            simp only [List.length_append, List.length_cons]
            omega)
        rw [hstep, hsout]
        exact ⟨.str (String.mk sout), rfl⟩
    | obj d => exact Except.noConfusion h
    | list xs =>
      cases xs with
      | nil =>
        cases h
        cases fuelP with
        | zero => simp at hfuel
        | succ q => exact ⟨.list [], rfl⟩
      | cons x xs2 =>
        dsimp only [dumpStep] at h
        cases hm : (x :: xs2).mapM (dumpV f (lvl + 1)) with
        | error e => rw [hm] at h; exact Except.noConfusion h
        | ok parts =>
          rw [hm] at h
          cases h
          cases fuelP with
          | zero => simp at hfuel
          | succ q =>
            obtain ⟨p0, parts2, hd0, hm2, hparts⟩ := mapM_cons_ok hm
            subst hparts
            obtain ⟨c0, t0, hp0, hc0ws, hc0r, hc0rb, hc0c⟩ := dumpV_head hd0
            simp only [List.map_cons] at hfuel ⊢
            set JT := joinSep [',', '\n']
              ((spaces (2 * (lvl + 1)) ++ p0) ::
                parts2.map (fun p => spaces (2 * (lvl + 1)) ++ p)) with hJT
            have hshape : ('[' :: '\n' ::
                (JT ++ '\n' :: (spaces (2 * lvl) ++ [']']))) ++ rest =
                '[' :: '\n' ::
                  (JT ++ '\n' :: (spaces (2 * lvl) ++ ']' :: rest)) := by
              simp [List.append_assoc]
            rw [hshape, parseValue_succ, parseStep]
            set REST0 := '\n' ::
              (JT ++ '\n' :: (spaces (2 * lvl) ++ ']' :: rest)) with hREST0
            rw [skipWs_cons_not (show isWsChar '[' = false from rfl)]
            dsimp only
            rw [if_neg (show ¬ ('[' : Char) = lbrace by decide), if_pos rfl]
            obtain ⟨Y, hY⟩ := @joinSep_head [',', '\n']
              (spaces (2 * (lvl + 1)) ++ p0)
              (parts2.map (fun p => spaces (2 * (lvl + 1)) ++ p))
              ('\n' :: (spaces (2 * lvl) ++ ']' :: rest))
            have hhead : skipWs REST0 = c0 :: (t0 ++ Y) := by
              rw [hREST0, skipWs_cons_ws (show isWsChar '\n' = true from rfl),
                ← hJT] at *
              rw [hY]
              have : (spaces (2 * (lvl + 1)) ++ p0) ++ Y =
                  spaces (2 * (lvl + 1)) ++ (p0 ++ Y) := by
                simp [List.append_assoc]
              rw [this, skipWs_append_ws spaces_ws, hp0, List.cons_append,
                skipWs_cons_not hc0ws]
            rw [hhead]
            dsimp only
            rw [if_neg hc0r]
            have hlen : JT.length + 2 * lvl + 4 < q + 1 := by
              simp only [List.length_cons, List.length_append, spaces,
                List.length_replicate, List.length_singleton] at hfuel
              omega
            obtain ⟨vs, hvs⟩ := items_roundtrip f q lvl
              (fun v d hd2 rest2 fuel2 hl hr => ihg (lvl + 1) v d hd2 rest2 fuel2 hl hr)
              (x :: xs2) (p0 :: parts2) hm (List.cons_ne_nil x xs2)
              ['\n'] rest (REST0.length + 1)
              (by intro c hc; rcases List.mem_singleton.mp hc with rfl; rfl)
              (by
                rw [hREST0]
                simp only [List.map_cons, ← hJT, List.length_cons,
                  List.length_append]
                omega)
              (by
                simp only [List.map_cons, ← hJT]
                omega)
              hrest
            simp only [List.map_cons, ← hJT, List.singleton_append] at hvs
            rw [← hREST0] at hvs
            rw [hvs]
            exact ⟨.list vs, rfl⟩
    | dict kvs =>
      cases kvs with
      | nil =>
        cases h
        cases fuelP with
        | zero => simp at hfuel
        | succ q => exact ⟨.dict [], rfl⟩
      | cons kv kvs2 =>
        dsimp only [dumpStep] at h
        cases hm : (kv :: kvs2).mapM (fun p =>
            (dumpV f (lvl + 1) p.2).map (fun d =>
              spaces (2 * (lvl + 1)) ++ escString p.1 ++ ':' :: ' ' :: d)) with
        | error e => rw [hm] at h; exact Except.noConfusion h
        | ok parts =>
          rw [hm] at h
          cases h
          cases fuelP with
          | zero => simp at hfuel
          | succ q =>
            obtain ⟨part0, parts2, hf0, hm2, hparts⟩ := mapM_cons_ok hm
            obtain ⟨d, hd, hpart0⟩ := except_map_ok hf0
            subst hparts
            subst hpart0
            set JT := joinSep [',', '\n']
              ((spaces (2 * (lvl + 1)) ++ escString kv.1 ++ ':' :: ' ' :: d) ::
                parts2) with hJT
            have hshape : (lbrace :: '\n' ::
                (JT ++ '\n' :: (spaces (2 * lvl) ++ [rbrace]))) ++ rest =
                lbrace :: '\n' ::
                  (JT ++ '\n' :: (spaces (2 * lvl) ++ rbrace :: rest)) := by
              simp [List.append_assoc]
            rw [hshape, parseValue_succ, parseStep]
            set REST0 := '\n' ::
              (JT ++ '\n' :: (spaces (2 * lvl) ++ rbrace :: rest)) with hREST0
            rw [skipWs_cons_not (show isWsChar lbrace = false from rfl)]
            dsimp only
            rw [if_pos rfl]
            obtain ⟨Y, hY⟩ := @joinSep_head [',', '\n']
              (spaces (2 * (lvl + 1)) ++ escString kv.1 ++ ':' :: ' ' :: d)
              parts2
              ('\n' :: (spaces (2 * lvl) ++ rbrace :: rest))
            have hhead : skipWs REST0 =
                '"' :: (escList kv.1.toList ++ '"' :: (':' :: ' ' :: d ++ Y)) := by
              rw [hREST0, skipWs_cons_ws (show isWsChar '\n' = true from rfl),
                ← hJT] at *
              rw [hY]
              have : (spaces (2 * (lvl + 1)) ++ escString kv.1 ++
                  ':' :: ' ' :: d) ++ Y =
                  spaces (2 * (lvl + 1)) ++
                    ('"' :: (escList kv.1.toList ++ '"' :: (':' :: ' ' :: d ++ Y))) := by
                simp [escString, List.append_assoc]
              rw [this, skipWs_append_ws spaces_ws,
                skipWs_cons_not (show isWsChar '"' = false from rfl)]
            rw [hhead]
            dsimp only
            rw [if_neg (show ¬ ('"' : Char) = rbrace by decide)]
            obtain ⟨ms, hms⟩ := members_roundtrip f q lvl
              (fun v d2 hd2 rest2 fuel2 hl hr => ihg (lvl + 1) v d2 hd2 rest2 fuel2 hl hr)
              (kv :: kvs2) ((spaces (2 * (lvl + 1)) ++ escString kv.1 ++
                ':' :: ' ' :: d) :: parts2) hm (List.cons_ne_nil kv kvs2)
              rest (REST0.length + 1)
              (by
                rw [hREST0]
                simp only [← hJT, List.length_cons, List.length_append]
                omega)
              (by
                simp only [← hJT]
                rw [hJT]
                simp only [List.length_cons, List.length_append, spaces,
                  List.length_replicate] at hfuel ⊢
                omega)
              hrest
            rw [← hJT] at hms
            have hcall : parseMembersF (parseValue q) (REST0.length + 1) REST0 =
                .ok (ms, rest) := by
              rw [hREST0, parseMembersF_cons_ws (parseValue q)
                (show isWsChar '\n' = true from rfl)]
              exact hms
            rw [hcall]
            exact ⟨.dict ms, rfl⟩

theorem pyDumps_roundtrip (v : PyVal) (u : String) (h : pyDumps v = .ok u) :
    (loads u).isOk = true := by
  rw [pyDumps] at h
  obtain ⟨out, hout, hu⟩ := except_map_ok h
  subst hu
  rw [loads]
  obtain ⟨w, hw⟩ := dumpV_roundtrip (depth v) 0 v out hout [] (out.length + 1)
    (by omega) restOk_nil
  rw [List.append_nil] at hw
  have hw2 : parseValue ((String.mk out).length + 1) (String.mk out).toList =
      .ok (w, []) := hw
  rw [hw2]
  rfl

/-- Claim C6: for every context object whose serialization succeeds, the
prompt built by both deployment variants is exactly the system instruction,
then the literal text between the braces of the f-string — a blank line,
"INPUT DATA:", a newline — then the pretty-printed JSON serialization of
the context, then a blank line and "DECISION (JSON):"; and the serialized
context is itself syntactically valid JSON (it parses back). -/
theorem c6_prompt_construction (ctx : PyVal) (u : String)
    (h : pyDumps ctx = .ok u) :
    buildPrompt Inference.SYSTEM_INSTRUCTION ctx =
      .ok (Inference.SYSTEM_INSTRUCTION ++ "\n\nINPUT DATA:\n" ++ u ++
        "\n\nDECISION (JSON):") ∧
    buildPrompt Server.SYSTEM_INSTRUCTION ctx =
      .ok (Server.SYSTEM_INSTRUCTION ++ "\n\nINPUT DATA:\n" ++ u ++
        "\n\nDECISION (JSON):") ∧
    (loads u).isOk = true := by
  refine ⟨?_, ?_, pyDumps_roundtrip ctx u h⟩
  · rw [buildPrompt, h]
    rfl
  · rw [buildPrompt, h]
    rfl

theorem c6_prompt_construction_witness :
    pyDumps (.dict [("sleepHours", .int 3)]) =
      .ok "\x7b\n  \"sleepHours\": 3\n\x7d" ∧
    buildPrompt Inference.SYSTEM_INSTRUCTION (.dict [("sleepHours", .int 3)]) =
      .ok (Inference.SYSTEM_INSTRUCTION ++ "\n\nINPUT DATA:\n" ++
        "\x7b\n  \"sleepHours\": 3\n\x7d" ++ "\n\nDECISION (JSON):") ∧
    (loads "\x7b\n  \"sleepHours\": 3\n\x7d").isOk = true := by
  have h : pyDumps (.dict [("sleepHours", .int 3)]) =
      .ok "\x7b\n  \"sleepHours\": 3\n\x7d" := rfl
  have h2 := c6_prompt_construction (.dict [("sleepHours", .int 3)])
    "\x7b\n  \"sleepHours\": 3\n\x7d" h
  exact ⟨h, h2.1, h2.2.2⟩

/-- Claim C7: in the service variant the mutual-exclusion lock is held from
prompt building through extraction, so in every reachable interleaving of
any number of concurrent `/inference` requests at most one thread is inside
the `generate` call at any instant — generation is entered strictly
serially, with no overlapping invocation intervals. -/
theorem c7_single_flight_generation {n : Nat} (s : LockModel.SState n)
    (h : LockModel.Reachable s) (t u : Fin n)
    (ht : s t = .generating) (hu : s u = .generating) : t = u :=
  LockModel.mutexInv_reachable h t u (by rw [ht]; rfl) (by rw [hu]; rfl)

theorem c7_single_flight_witness : (0 : Fin 2) = 0 := by
  have h1 : LockModel.Step (LockModel.init 2)
      (Function.update (LockModel.init 2) 0 .waiting) :=
    LockModel.Step.arrive (LockModel.init 2) 0 rfl
  have h2 : LockModel.Step (Function.update (LockModel.init 2) 0 .waiting)
      (Function.update (Function.update (LockModel.init 2) 0 .waiting) 0
        .building) :=
    LockModel.Step.acquire (Function.update (LockModel.init 2) 0 .waiting) 0
      (by rfl)
      (by
        intro u2
        fin_cases u2 <;> rfl)
  have h3 : LockModel.Step
      (Function.update (Function.update (LockModel.init 2) 0 .waiting) 0
        .building)
      (Function.update (Function.update (Function.update (LockModel.init 2) 0
        .waiting) 0 .building) 0 .generating) :=
    LockModel.Step.startGen _ 0 (by rfl)
  have hreach : LockModel.Reachable
      (Function.update (Function.update (Function.update (LockModel.init 2) 0
        .waiting) 0 .building) 0 .generating) :=
    LockModel.Reachable.step
      (LockModel.Reachable.step (LockModel.Reachable.step
        LockModel.Reachable.init h1) h2) h3
  have hgen : (Function.update (Function.update (Function.update
      (LockModel.init 2) 0 .waiting) 0 .building) 0 .generating) 0 =
      LockModel.Phase.generating := by rfl
  exact c7_single_flight_generation _ hreach 0 0 hgen hgen
